/-
Verification of the BAG2_TEMPLATES_EC layout-generator library.

This file shallowly embeds the parts of the repository that the claims
touch:

* the Python class hierarchy declared in the 17 source files
  (for the template-hierarchy claims);
* Python's `ABCMeta` instantiation rule, together with a model of the
  external `bag` framework's `TemplateBase` (modelled from the spec);
* `LaygoIntvSet` from `abs_templates_ec/laygo/core.py`;
* `LaygoBase.add_laygo_primitive` from the same file;
* the `_tech_cls` initialisation of `AnalogBaseInfo.__init__` and
  `AnalogBase.__init__` from `abs_templates_ec/analog_core.py`;
* the row-placement arithmetic of `AnalogBase._place_helper`, and the
  candidate-selection loop of `AnalogBase._place` / `AnalogBase.draw_base`,
  all from `abs_templates_ec/analog_core.py`.

Machine integers are modelled by `Int` (Python ints are unbounded, so no
wrap-around is needed); Python `//` is floor division, modelled by
`Int.fdiv`.  Half-integer routing-track indices (BAG's `half_track=True`)
are modelled by `Rat`.  Calls into the external BAG framework (routing
grid queries, technology-class queries) are modelled as oracle functions
bundled in structures, so every theorem about the placement arithmetic is
proved for an arbitrary routing grid and technology class.
-/
import Mathlib

/-! ## Generic helpers -/
/-- Python floor division `a // b`. -/
def pydiv (a b : Int) : Int := Int.fdiv a b

/-- The Python idiom `-(-a // b) * b` used throughout `_place_helper` to
round `a` up to a multiple of `b`. -/
def ceilMul (a b : Int) : Int := -(pydiv (-a) b) * b

/-! ## The Python class hierarchy of the 17 source files

Every `class` statement in the repository, with the list of base classes
exactly as written in the source.  `with_metaclass(abc.ABCMeta, B)`
declares base `B` (plus the `ABCMeta` metaclass), so only `B` is listed
as a base here. -/
structure PyClassDecl where
  name : String
  bases : List String
  deriving DecidableEq, Repr

/-- All class statements of the 17 source files, in file order. -/
def repoClasses : List PyClassDecl :=
  [ -- scripts_test/stack_driver_v3.py
    ⟨"StackDriver", ["LaygoBase"]⟩,
    ⟨"StackDriverArray", ["DigitalBase"]⟩,
    -- abs_templates_ec/mos_char.py
    ⟨"Transistor", ["AnalogBase"]⟩,
    -- abs_templates_ec/laygo/base.py
    ⟨"LaygoPrimitive", ["TemplateBase"]⟩,
    ⟨"LaygoSubstrate", ["TemplateBase"]⟩,
    ⟨"LaygoEndRow", ["TemplateBase"]⟩,
    ⟨"LaygoSpace", ["TemplateBase"]⟩,
    -- abs_templates_ec/laygo/core.py
    ⟨"LaygoIntvSet", ["object"]⟩,
    ⟨"LaygoBaseInfo", ["object"]⟩,
    ⟨"LaygoBase", ["TemplateBase"]⟩,
    -- abs_templates_ec/laygo/finfet.py
    ⟨"LaygoTechFinfetBase", ["LaygoTech"]⟩,
    -- abs_templates_ec/analog_mos/mos.py
    ⟨"AnalogMOSBase", ["TemplateBase"]⟩,
    ⟨"AnalogMOSExt", ["TemplateBase"]⟩,
    ⟨"SubRingExt", ["TemplateBase"]⟩,
    -- abs_templates_ec/analog_mos/edge.py
    ⟨"AnalogEndRow", ["TemplateBase"]⟩,
    ⟨"SubRingEndRow", ["TemplateBase"]⟩,
    ⟨"AnalogOuterEdge", ["TemplateBase"]⟩,
    ⟨"AnalogGuardRingSep", ["TemplateBase"]⟩,
    ⟨"AnalogEdge", ["TemplateBase"]⟩,
    -- abs_templates_ec/analog_mos/substrate.py
    ⟨"AnalogSubstrateCore", ["TemplateBase"]⟩,
    ⟨"AnalogSubstrate", ["TemplateBase"]⟩,
    -- abs_templates_ec/analog_mos/conn.py
    ⟨"AnalogMOSConn", ["TemplateBase"]⟩,
    ⟨"AnalogMOSDummy", ["TemplateBase"]⟩,
    ⟨"AnalogMOSDecap", ["TemplateBase"]⟩,
    ⟨"AnalogSubstrateConn", ["TemplateBase"]⟩,
    -- abs_templates_ec/adc_sar/digital/retiming.py
    ⟨"RetimeLatchRow", ["StdCellBase"]⟩,
    ⟨"RetimeSpaceRow", ["StdCellBase"]⟩,
    ⟨"RetimeBufferRow", ["StdCellBase"]⟩,
    ⟨"Retimer", ["StdCellBase"]⟩,
    -- abs_templates_ec/routing/bias.py
    ⟨"BiasShield", ["TemplateBase"]⟩,
    ⟨"BiasShieldEnd", ["TemplateBase"]⟩,
    ⟨"BiasShieldCrossing", ["TemplateBase"]⟩,
    ⟨"BiasShieldJoin", ["TemplateBase"]⟩,
    -- abs_templates_ec/analog_core.py
    ⟨"AnalogBaseInfo", ["object"]⟩,
    ⟨"AnalogBase", ["TemplateBase"]⟩,
    ⟨"SubstrateContact", ["TemplateBase"]⟩,
    -- abs_templates_ec/analog_mos.py
    ⟨"AnalogMosBase", ["MicroTemplate"]⟩,
    ⟨"AnalogSubstrate", ["MicroTemplate"]⟩,
    ⟨"AnalogFinfetFoundation", ["MicroTemplate"]⟩,
    ⟨"AnalogFinfetExt", ["AnalogFinfetFoundation"]⟩,
    ⟨"AnalogFinfetGuardRingExt", ["MicroTemplate"]⟩,
    ⟨"AnalogFinfetEdge", ["AnalogFinfetFoundation"]⟩,
    ⟨"AnalogFinfetGuardRingEdge", ["MicroTemplate"]⟩,
    ⟨"AnalogFinfetBase", ["AnalogMosBase"]⟩,
    ⟨"AnalogMosConn", ["MicroTemplate"]⟩,
    ⟨"AnalogMosSep", ["MicroTemplate"]⟩,
    ⟨"AnalogMosDummy", ["MicroTemplate"]⟩,
    -- abs_templates_ec/serdes/rxpassive.py
    ⟨"DLevCap", ["TemplateBase"]⟩,
    ⟨"RXClkArray", ["TemplateBase"]⟩,
    -- abs_templates_ec/analog_res.py
    ⟨"AnalogResCore", ["MicroTemplate"]⟩,
    ⟨"AnalogResLREdge", ["MicroTemplate"]⟩,
    ⟨"AnalogResTBEdge", ["MicroTemplate"]⟩,
    ⟨"AnalogResCorner", ["MicroTemplate"]⟩,
    ⟨"ResArrayBase", ["MicroTemplate"]⟩,
    ⟨"ResArrayTest", ["ResArrayBase"]⟩,
    -- abs_templates_ec/digital/core.py
    ⟨"DigitalBase", ["TemplateBase"]⟩,
    -- abs_templates_ec/analog_core/substrate.py
    ⟨"SubstrateContact", ["TemplateBase"]⟩,
    ⟨"SubstrateRing", ["TemplateBase"]⟩,
    ⟨"DeepNWellRing", ["TemplateBase"]⟩ ]

/-- The BAG framework's template base classes named by the spec. -/
def templateRoots : List String := ["TemplateBase", "MicroTemplate", "StdCellBase"]

/-- Whether the class named `n` reaches a BAG template base class through
the base-class chains declared in the repository (bounded recursion depth;
the longest chain in the repository has length 3). -/
def isTemplateName : Nat → String → Bool
  | 0, _ => false
  | k + 1, n =>
    templateRoots.contains n ||
      (match repoClasses.find? (fun c => c.name == n) with
       | some c => c.bases.any (isTemplateName k)
       | none => false)

/-- A class declaration is a template class when it reaches a BAG template
base class. -/
def isTemplateClass (c : PyClassDecl) : Bool := c.bases.any (isTemplateName 8)

/-- The classes of the repository that are not template classes:
the three plain helper classes and the technology helper base. -/
def nonTemplateNames : List String :=
  ["LaygoIntvSet", "LaygoBaseInfo", "AnalogBaseInfo", "LaygoTechFinfetBase"]

/-! ## Python `ABCMeta` instantiation semantics

`AnalogBase`, `LaygoBase` and `DigitalBase` are declared with the
`ABCMeta` metaclass (`with_metaclass(abc.ABCMeta, TemplateBase)` in
`analog_core.py` and `digital/core.py`, `metaclass=abc.ABCMeta` in
`laygo/core.py`).  Python refuses to instantiate a class whose metaclass
is `ABCMeta` and whose resolved set of abstract methods is non-empty. -/
structure PyClassFull where
  name : String
  bases : List String
  declaresABCMeta : Bool
  concreteDefs : List String
  abstractDefs : List String
  deriving DecidableEq, Repr

/-- Modelled from the spec: the external BAG framework class
`bag.layout.template.TemplateBase` ("a BAG layout-generator class; given
parameters, emits geometry into a cell", instantiable only through the
CAD framework).  It is an `ABCMeta` class whose layout hooks
`get_params_info` and `draw_layout` are abstract; the repository's
`# noinspection PyAbstractClass` marks on its subclasses rely on this. -/
def templateBaseDecl : PyClassFull :=
  ⟨"TemplateBase", [], true, ["__init__"], ["get_params_info", "draw_layout"]⟩

/-- The three abstract base template classes of the repository, a concrete
subclass (`Transistor` of `mos_char.py`), and the modelled framework base.
Method lists are restricted to the methods relevant to instantiation:
none of the three bases defines `get_params_info` or `draw_layout`. -/
def classTableFull : List PyClassFull :=
  [ templateBaseDecl,
    ⟨"AnalogBase", ["TemplateBase"], true,
      ["__init__", "draw_base", "_place", "_place_helper", "_make_masters"], []⟩,
    ⟨"LaygoBase", ["TemplateBase"], true,
      ["__init__", "set_row_types", "add_laygo_primitive", "fill_space"], []⟩,
    ⟨"DigitalBase", ["TemplateBase"], true,
      ["__init__", "set_digital_size", "add_digital_block", "fill_space"], []⟩,
    ⟨"Transistor", ["AnalogBase"], false,
      ["__init__", "get_params_info", "get_default_param_values", "draw_layout"], []⟩ ]

def findClassFull (n : String) : Option PyClassFull :=
  classTableFull.find? (fun c => c.name == n)

/-- The resolved `__abstractmethods__` of a class: abstract methods
declared here or inherited, minus those overridden by a concrete def. -/
def pyAbstracts : Nat → String → List String
  | 0, _ => []
  | k + 1, n =>
    match findClassFull n with
    | none => []
    | some c =>
      (c.abstractDefs ++ c.bases.foldr (fun b acc => pyAbstracts k b ++ acc) []).filter
        (fun m => !(c.concreteDefs.contains m))

/-- Whether the metaclass of a class resolves to `ABCMeta` (declared on
the class itself or inherited from a base). -/
def pyHasABCMeta : Nat → String → Bool
  | 0, _ => false
  | k + 1, n =>
    match findClassFull n with
    | none => false
    | some c => c.declaresABCMeta || c.bases.any (pyHasABCMeta k)

/-- Whether `n` is a (reflexive, transitive) subclass of `m` in the table. -/
def pySubclassOf : Nat → String → String → Bool
  | 0, n, m => n == m
  | k + 1, n, m =>
    n == m ||
      (match findClassFull n with
       | none => false
       | some c => c.bases.any (fun b => pySubclassOf k b m))

/-- Python object creation: `C()` raises
`TypeError: Can't instantiate abstract class ...` when the metaclass is
`ABCMeta` and abstract methods remain unimplemented. -/
def pyInstantiate (n : String) : Except String Unit :=
  if pyHasABCMeta 8 n && !(pyAbstracts 8 n).isEmpty then
    Except.error ("Can't instantiate abstract class " ++ n)
  else
    Except.ok ()

/-! ## `LaygoIntvSet` (`abs_templates_ec/laygo/core.py`)

`LaygoIntvSet` wraps a `bag.util.interval.IntervalSet` (a set of
mutually non-overlapping half-open integer intervals, each carrying a
value; `add` succeeds exactly when the new interval overlaps no stored
interval) together with the `_end_flags` dictionary. -/
/-- A laygo column interval `(start_column, stop_column)`. -/
abbrev Intv := Int × Int

/-- Two half-open intervals overlap. -/
def intvOverlap (a b : Intv) : Prop := max a.1 b.1 < min a.2 b.2

instance (a b : Intv) : Decidable (intvOverlap a b) := by
  unfold intvOverlap; infer_instance

/-- Model of the external `bag.util.interval.IntervalSet`: the stored
intervals with their values (storage order is irrelevant to the claims). -/
structure IntervalSetM (α : Type) where
  items : List (Intv × α)
  deriving Repr

/-- `IntervalSet.add`: succeeds iff the interval overlaps no stored one;
on failure the set is unchanged. -/
def IntervalSetM.addIS (s : IntervalSetM α) (iv : Intv) (v : α) :
    Bool × IntervalSetM α :=
  if s.items.any (fun p => decide (intvOverlap p.1 iv)) then (false, s)
  else (true, ⟨(iv, v) :: s.items⟩)

/-- The `_end_flags` dict update of `LaygoIntvSet.add`:
`if key in d: del d[key] else: d[key] = v`. -/
def flagToggle (fl : List (Int × β)) (k : Int) (v : β) : List (Int × β) :=
  if fl.any (fun p => p.1 == k) then fl.filter (fun p => !(p.1 == k))
  else (k, v) :: fl

/-- The state of a `LaygoIntvSet`: the interval set and the end-flag map
(`_default_end_info` plays no role in the claims). -/
structure LaygoIntvSetM (α β : Type) where
  intv : IntervalSetM α
  endFlags : List (Int × β)
  deriving Repr

/-- A fresh `LaygoIntvSet`. -/
def LaygoIntvSetM.empty : LaygoIntvSetM α β := ⟨⟨[]⟩, []⟩

/-- `LaygoIntvSet.add(intv, ext_info, endl, endr)`. -/
def LaygoIntvSetM.add (st : LaygoIntvSetM α β) (iv : Intv) (ext : α)
    (endl endr : β) : Bool × LaygoIntvSetM α β :=
  let res := st.intv.addIS iv ext
  if res.1 then
    (true, ⟨res.2, flagToggle (flagToggle st.endFlags iv.1 endl) iv.2 endr⟩)
  else
    (false, st)

/-- Membership of `p` among the interval start columns. -/
def LaygoIntvSetM.isStart (st : LaygoIntvSetM α β) (p : Int) : Bool :=
  st.intv.items.any (fun q => q.1.1 == p)

/-- Membership of `p` among the interval stop columns. -/
def LaygoIntvSetM.isStop (st : LaygoIntvSetM α β) (p : Int) : Bool :=
  st.intv.items.any (fun q => q.1.2 == p)

/-- Membership of `p` among the end-flag keys. -/
def LaygoIntvSetM.hasFlag (st : LaygoIntvSetM α β) (p : Int) : Bool :=
  st.endFlags.any (fun q => q.1 == p)

/-- One `add` request. -/
structure AddReq (α β : Type) where
  iv : Intv
  ext : α
  endl : β
  endr : β

/-- Run a sequence of `add` requests on a fresh `LaygoIntvSet`
(failed adds leave the state unchanged, as in the code). -/
def runAdds (reqs : List (AddReq α β)) : LaygoIntvSetM α β :=
  reqs.foldl (fun st r => (st.add r.iv r.ext r.endl r.endr).2) LaygoIntvSetM.empty

/-- All intervals stored in a `LaygoIntvSet` are proper (`start < stop`). -/
def ProperIntvs (st : LaygoIntvSetM α β) : Prop :=
  ∀ q ∈ st.intv.items, q.1.1 < q.1.2

/-- The end-flag keys are exactly the boundary columns that are an
endpoint of exactly one stored interval side. -/
def FlagInv (st : LaygoIntvSetM α β) : Prop :=
  ∀ p, st.hasFlag p = xor (st.isStart p) (st.isStop p)

/-! ## `LaygoBase.add_laygo_primitive` (`abs_templates_ec/laygo/core.py`)

The method checks the row index, then adds the `nx` copy intervals
`(col_idx + spx*k, col_idx + spx*k + num_col)` one by one to the row's
`LaygoIntvSet`, raising `ValueError` at the first copy that overlaps; it
finally places the instance and returns it.  The number of columns
`num_col` of the primitive master is an input here (it comes from the
externally-created master's `laygo_size`). -/
/-- The column interval of copy `k`. -/
def copyIntv (colIdx spx numCol : Int) (k : Nat) : Intv :=
  (colIdx + spx * k, colIdx + spx * k + numCol)

/-- Copy `k` overlaps either a previously stored interval of the row or
one of the copies `0..k-1` added by earlier loop iterations. -/
def copyBlocked (orig : List (Intv × α)) (colIdx spx numCol : Int) (k : Nat) : Prop :=
  (∃ q ∈ orig, intvOverlap q.1 (copyIntv colIdx spx numCol k)) ∨
    ∃ j < k, intvOverlap (copyIntv colIdx spx numCol j) (copyIntv colIdx spx numCol k)

instance (orig : List (Intv × α)) (colIdx spx numCol : Int) (k : Nat) :
    Decidable (copyBlocked orig colIdx spx numCol k) := by
  unfold copyBlocked; infer_instance

/-- The `for inst_num in range(nx)` loop of `add_laygo_primitive`:
on overlap it raises, handing back the row state mutated so far. -/
def addPrimCopies (rowIdx : Int) (ext : α) (endl endr : β)
    (colIdx spx numCol : Int) :
    Nat → Nat → LaygoIntvSetM α β →
      Except (String × LaygoIntvSetM α β) (LaygoIntvSetM α β)
  | 0, _, row => Except.ok row
  | n + 1, instNum, row =>
    let iv := copyIntv colIdx spx numCol instNum
    let res := row.add iv ext endl endr
    if res.1 then
      addPrimCopies rowIdx ext endl endr colIdx spx numCol n (instNum + 1) res.2
    else
      Except.error ("Cannot add primitive on row " ++ toString rowIdx ++
        ", column [" ++ toString iv.1 ++ ", " ++ toString iv.2 ++ ").", row)

/-- The part of a `LaygoBase`'s state that `add_laygo_primitive` touches:
one `LaygoIntvSet` per row (`self._used_list`); the number of rows is the
length of this list. -/
structure LaygoBaseSt (α β : Type) where
  usedList : List (LaygoIntvSetM α β)

/-- The framework `Instance` object returned on success (only the fields
derived in `add_laygo_primitive` itself are modelled). -/
structure LInstance where
  name : String
  nx : Nat
  deriving DecidableEq, Repr

/-- `LaygoBase.add_laygo_primitive`.  A raised `ValueError` is modelled
as `Except.error` carrying the message and the (mutated) state. -/
def addLaygoPrimitive (st : LaygoBaseSt α β) (colIdx rowIdx : Int)
    (numCol : Int) (ext : α) (endl endr : β) (nx : Nat) (spx : Int) :
    Except (String × LaygoBaseSt α β) (LaygoBaseSt α β × LInstance) :=
  if rowIdx < 0 ∨ (st.usedList.length : Int) ≤ rowIdx then
    Except.error ("Cannot add primitive at row " ++ toString rowIdx, st)
  else
    match addPrimCopies rowIdx ext endl endr colIdx spx numCol nx 0
        (st.usedList.getD rowIdx.toNat LaygoIntvSetM.empty) with
    | Except.ok row' =>
      Except.ok (⟨st.usedList.set rowIdx.toNat row'⟩,
        ⟨"XR" ++ toString rowIdx ++ "C" ++ toString colIdx, nx⟩)
    | Except.error x =>
      Except.error (x.1, ⟨st.usedList.set rowIdx.toNat x.2⟩)

/-! ## `_tech_cls` initialisation (`abs_templates_ec/analog_core.py`)

Both `AnalogBaseInfo.__init__` and `AnalogBase.__init__` begin with

    tech_params = grid.tech_info.tech_params  (resp. self.grid...)
    self._tech_cls = tech_params['layout']['mos_tech_class']

Nested technology-parameter dictionaries are modelled by `TechVal`;
a missing key (Python `KeyError`) is modelled by `Option`. -/
inductive TechVal where
  | sub : List (String × TechVal) → TechVal
  | cls : Nat → TechVal
  | num : Int → TechVal
  deriving Repr

/-- Dictionary lookup `d[k]`; `none` models a `KeyError`. -/
def TechVal.lookup? : TechVal → String → Option TechVal
  | TechVal.sub d, k => (d.find? (fun p => p.1 == k)).map (fun p => p.2)
  | _, _ => none

def TechVal.asNum : TechVal → Option Int
  | TechVal.num n => some n
  | _ => none

/-- The external `tech_info` object reached through the routing grid. -/
structure TechInfoM where
  techParams : TechVal

/-- The external routing grid object (only the parts these constructors
read). -/
structure RoutingGridM where
  techInfo : TechInfoM

/-- The phrase of the spec: the value of
`tech_params['layout']['mos_tech_class']` where
`tech_params = grid.tech_info.tech_params`. -/
def mosTechClassLookup (grid : RoutingGridM) : Option TechVal :=
  (grid.techInfo.techParams.lookup? "layout").bind
    (fun d => d.lookup? "mos_tech_class")

/-- The behaviour of a technology class object, as an oracle
interpretation of the stored `TechVal`. -/
structure MOSTechM where
  mosConnLayer : Int
  dumConnLayer : Int
  dumConnPitch : Int

/-- The fields of `AnalogBaseInfo` assigned in `__init__` that the claims
mention. -/
structure AnalogBaseInfoSt where
  techCls : TechVal
  minFgSep : Int
  mconnPortLayer : Int
  dumPortLayer : Int

/-- `AnalogBaseInfo.__init__` (the technology-parameter reads; routing
grid updates are external side effects with no bearing on `_tech_cls`). -/
def analogBaseInfoInit (interp : TechVal → MOSTechM) (grid : RoutingGridM)
    (minFgSep : Int) : Option AnalogBaseInfoSt := do
  let techParams := grid.techInfo.techParams
  let layoutD ← techParams.lookup? "layout"
  let techCls ← layoutD.lookup? "mos_tech_class"
  let abD ← layoutD.lookup? "analog_base"
  let minFgSepTech ← (← abD.lookup? "min_fg_sep").asNum
  let t := interp techCls
  some ⟨techCls, max minFgSep minFgSepTech, t.mosConnLayer, t.dumConnLayer⟩

/-- `AnalogBase.__init__` (the `_tech_cls` assignment and the
`dum_conn_pitch` validation that follows it). -/
def analogBaseInit (interp : TechVal → MOSTechM) (grid : RoutingGridM) :
    Except String TechVal :=
  match (grid.techInfo.techParams.lookup? "layout").bind
      (fun d => d.lookup? "mos_tech_class") with
  | none => Except.error "KeyError: mos_tech_class"
  | some techCls =>
    if (interp techCls).dumConnPitch ≠ 1 ∧ (interp techCls).dumConnPitch ≠ 2 then
      Except.error "Current only support dum_conn_pitch = 1 or 2"
    else
      Except.ok techCls

/-! ## `AnalogBase._place_helper` (`abs_templates_ec/analog_core.py`)

Coordinates are unit-mode integers; routing-track indices are
half-integers (`half_track=True`), modelled by `Rat`.  All routing-grid
and technology-class queries are oracle fields, so the theorems hold for
every grid and every technology. -/
/-- The routing-grid queries `_place_helper` makes (the horizontal layer
`hm_layer` and the mode flags are fixed at the call sites, so they are
baked into the fields). -/
structure GridM (K : Type) [LinearOrderedCommRing K] where
  hmSep : K
  viaExt : Int
  hmW : Int
  findNextTrack : Int → K
  coordToTrackUp : Int → K
  coordToTrackDown : Int → K
  wireBoundTop : K → Int
  trackToCoord : K → Int

variable {K : Type} [LinearOrderedCommRing K]

/-- `conn_delta = via_ext + hm_w // 2`. -/
def connDelta (g : GridM K) : Int := g.viaExt + pydiv g.hmW 2

/-- The data `_place_helper` reads from a row master. -/
structure MasterM where
  height : Int
  arrBot : Int
  arrTop : Int
  arrHeight : Int
  gConnY : Int × Int
  dConnY : Int × Int
  extTop : Nat
  extBot : Nat

/-- Row orientation: the code tests `cur_orient == 'R0'`; every other
orientation (`'MX'`) takes the flipped branch. -/
inductive OrientM where
  | R0 : OrientM
  | MX : OrientM
  deriving DecidableEq, Repr

/-- One entry of `track_spec_list`: `(orient, ng, nds)`; substrate rows
carry `(-1, -1)`. -/
structure TrackSpec where
  orient : OrientM
  ng : Int
  nds : Int

/-- The technology-class query `get_valid_extension_widths(lch_unit,
top_ext_info, bot_ext_info)` (with `lch_unit` fixed). -/
structure TechClsM where
  validExtWidths : Nat → Nat → List Int

/-- One entry of the returned `ext_info_list`: the chosen extension width
together with the two extension-info objects the valid-width list was
queried with. -/
structure ExtRec where
  w : Int
  top : Nat
  bot : Nat
  deriving DecidableEq, Repr

/-- The return value of `_place_helper`. -/
structure PHRes (K : Type) where
  yList : List Int
  extList : List ExtRec
  totNtr : K
  gtr : List (K × K)
  dtr : List (K × K)
  deriving DecidableEq, Repr

/-- The per-row track computation (step 2 of `_place_helper`): the
gate-track interval, drain/source-track interval, and the next free
track. -/
structure StepOut (K : Type) where
  gIntv : K × K
  dIntv : K × K
  trTmp : K

def stepIntervals (g : GridM K) (gds : Int) (yCur : Int) (m : MasterM)
    (sp : TrackSpec) : StepOut K :=
  if sp.ng < 0 then
    -- substrate: tracks within the array bounding box
    let yarrBot := if sp.orient = OrientM.R0 then yCur + m.arrBot else yCur
    let yarrTop := if sp.orient = OrientM.R0 then yCur + m.arrTop
                   else yCur + m.arrHeight
    let trA := g.findNextTrack yarrBot
    let trTmp := g.findNextTrack yarrTop
    ⟨(trTmp, trTmp), (trA, trTmp), trTmp⟩
  else if sp.orient = OrientM.R0 then
    -- transistor, drain/source tracks on top
    let gYt := m.gConnY.2 + yCur
    let dYb := m.dConnY.1 + yCur
    let dYt := m.dConnY.2 + yCur
    let trGTop := g.coordToTrackDown (gYt - connDelta g)
    let trDsBot := max (g.coordToTrackUp (dYb + connDelta g))
      (trGTop + (gds : K) + 1)
    let trDsTop1 := trDsBot + (sp.nds : K) - 1
    let trDsTop2 := g.coordToTrackUp (dYt - connDelta g)
    let trDsTop := max trDsTop1 trDsTop2
    ⟨(trGTop + 1 - (sp.ng : K), trGTop + 1), (trDsBot, trDsTop + 1),
      trDsTop + 1 + g.hmSep⟩
  else
    -- transistor, gate tracks on top
    let yTopCur := yCur + m.height
    let gYt := yTopCur - m.gConnY.2
    let gYb := yTopCur - m.gConnY.1
    let dYb := yTopCur - m.dConnY.1
    let trDsTop0 := g.coordToTrackDown (dYb - connDelta g)
    let trGBot := g.coordToTrackUp (gYt + connDelta g)
    let trDsTop := min trDsTop0 (trGBot - 1 - (gds : K))
    let trGTop1 := trGBot + (sp.ng : K) - 1
    let trGTop2 := g.coordToTrackUp (gYb - connDelta g)
    let trGTop := max trGTop1 trGTop2
    ⟨(trGBot, trGTop + 1), (trDsTop + 1 - (sp.nds : K), trDsTop + 1),
      trGTop + 1 + g.hmSep⟩

/-- `ext_w_list[-1]` (used only on non-empty lists). -/
def lastElem (l : List Int) : Int := l.getLastD 0

/-- The `for tmp_ext_w in ext_w_list: if w < tmp_ext_w: ... break` scan. -/
def firstGreater (l : List Int) (w : Int) : Option Int :=
  l.find? (fun x => w < x)

/-- The quantization fix-up
`if w not in ext_w_list and w < ext_w_list[-1]: w = first greater`. -/
def bumpExt (l : List Int) (w : Int) : Int :=
  if w ∉ l ∧ w < lastElem l then (firstGreater l w).getD w else w

/-- The `while ext_w not in ext_w_list and ext_w < ext_w_list[-1]` loop
of the last-block branch (step 3B), with fuel; Python would loop forever
exactly when the fuel runs out here. -/
def lastBlockLoop (l : List Int) (mosP totP yTopCur nextH : Int) :
    Nat → Int → Int → Option (Int × Int)
  | 0, extW, yNext =>
    if extW ∉ l ∧ extW < lastElem l then none else some (extW, yNext)
  | f + 1, extW, yNext =>
    if extW ∉ l ∧ extW < lastElem l then
      let extW1 := (firstGreater l extW).getD extW
      let yNext1 := yTopCur + extW1 * mosP
      let yTop := ceilMul (yNext1 + nextH) totP
      let yNext2 := yTop - nextH
      let extW2 := pydiv (yNext2 - yTopCur) mosP
      lastBlockLoop l mosP totP yTopCur nextH f extW2 yNext2
    else
      some (extW, yNext)

/-- The `top_ext_info, bot_ext_info` pair handed to
`get_valid_extension_widths` (step 3A). -/
def extWidthInfos (cur next : MasterM × TrackSpec) : Nat × Nat :=
  (if next.2.orient = OrientM.R0 then next.1.extBot else next.1.extTop,
   if cur.2.orient = OrientM.R0 then cur.1.extTop else cur.1.extBot)

/-- The minimum extension width of step 3A: the head of the valid-width
list, raised to `bot_ext_w` for the first extension and to the
track-induced minimum, then quantized. -/
def minExtW (l : List Int) (botExtW yNextMin0 yTopCur mosP : Int)
    (isFirst : Bool) : Int :=
  bumpExt l (max (if isFirst then max (l.headD 0) botExtW else l.headD 0)
    (pydiv (yNextMin0 - yTopCur) mosP))

/-- `y_next_min` after step 3A. -/
def yNextMinF (l : List Int) (botExtW yNextMin0 yTopCur mosP : Int)
    (isFirst : Bool) : Int :=
  max yNextMin0 (yTopCur + minExtW l botExtW yNextMin0 yTopCur mosP isFirst * mosP)

/-- The `y` coordinate of the next (non-last) master, step 3B else-branch. -/
def yNextMid (g : GridM K) (gds mosP : Int) (trNext : K) (yNextMin : Int)
    (next : MasterM × TrackSpec) : Int :=
  if next.2.ng < 0 then
    yNextMin
  else if next.2.orient = OrientM.R0 then
    max (ceilMul (g.trackToCoord (trNext + (next.2.ng : K) - 1)
      - next.1.gConnY.2 + connDelta g) mosP) yNextMin
  else
    max (ceilMul (g.trackToCoord (trNext + (next.2.nds : K) + (gds : K) - 1)
      - (next.1.arrHeight - next.1.dConnY.1) + connDelta g) mosP) yNextMin

/-- Step 3 on a non-empty valid-width list: the chosen extension width
and the next master's `y` coordinate. -/
def extToNextCore (g : GridM K) (gds mosP totP botExtW : Int) (fuel : Nat)
    (isFirst isLast : Bool) (yTopCur : Int) (trNext : K) (yNextMin0 : Int)
    (next : MasterM × TrackSpec) (l : List Int) : Option (Int × Int) :=
  if isLast then
    lastBlockLoop l mosP totP yTopCur next.1.height fuel
      (pydiv (ceilMul (yNextMinF l botExtW yNextMin0 yTopCur mosP isFirst
          + next.1.height) totP - next.1.height - yTopCur) mosP)
      (ceilMul (yNextMinF l botExtW yNextMin0 yTopCur mosP isFirst
          + next.1.height) totP - next.1.height)
  else
    some (bumpExt l (pydiv
        (yNextMid g gds mosP trNext
          (yNextMinF l botExtW yNextMin0 yTopCur mosP isFirst) next - yTopCur) mosP),
      yNextMid g gds mosP trNext
        (yNextMinF l botExtW yNextMin0 yTopCur mosP isFirst) next)

/-- Step 3 of `_place_helper`: the extension width to the next master and
the next master's `y` coordinate.  `none` models the `IndexError` on an
empty valid-width list or non-termination of the last-block loop. -/
def extToNext (g : GridM K) (tech : TechClsM) (gds mosP totP botExtW : Int)
    (fuel : Nat) (isFirst isLast : Bool) (yTopCur : Int) (trNext : K)
    (yNextMin0 : Int) (cur next : MasterM × TrackSpec) :
    Option (ExtRec × Int) :=
  match tech.validExtWidths (extWidthInfos cur next).1 (extWidthInfos cur next).2 with
  | [] => none
  | w0 :: tl =>
    (extToNextCore g gds mosP totP botExtW fuel isFirst isLast yTopCur trNext
        yNextMin0 next (w0 :: tl)).map
      (fun p => (⟨p.1, (extWidthInfos cur next).1, (extWidthInfos cur next).2⟩, p.2))

/-- The main loop of `_place_helper` over the master list. -/
def phLoop (g : GridM K) (tech : TechClsM) (gds mosP totP botExtW : Int)
    (fuel : Nat) :
    Bool → Int → (MasterM × TrackSpec) → List (MasterM × TrackSpec) →
      Option (PHRes K)
  | _, yCur, cur, [] =>
    let so := stepIntervals g gds yCur cur.1 cur.2
    some ⟨[yCur], [], so.trTmp, [so.gIntv], [so.dIntv]⟩
  | isFirst, yCur, cur, next :: rest =>
    match extToNext g tech gds mosP totP botExtW fuel isFirst rest.isEmpty
        (yCur + cur.1.height) (stepIntervals g gds yCur cur.1 cur.2).trTmp
        (ceilMul (g.wireBoundTop ((stepIntervals g gds yCur cur.1 cur.2).trTmp - 1)) mosP)
        cur next with
    | none => none
    | some (er, yNext) =>
      match phLoop g tech gds mosP totP botExtW fuel false yNext next rest with
      | none => none
      | some sub =>
        some ⟨yCur :: sub.yList, er :: sub.extList, sub.totNtr,
          (stepIntervals g gds yCur cur.1 cur.2).gIntv :: sub.gtr,
          (stepIntervals g gds yCur cur.1 cur.2).dIntv :: sub.dtr⟩

/-- `AnalogBase._place_helper(bot_ext_w, track_spec_list, master_list,
gds_space, hm_layer, mos_pitch, tot_pitch, dy)`. -/
def placeHelper (g : GridM K) (tech : TechClsM) (botExtW : Int)
    (rows : List (MasterM × TrackSpec)) (gds mosP totP dy : Int)
    (fuel : Nat) : Option (PHRes K) :=
  match rows with
  | [] => some ⟨[], [], 0, [], []⟩
  | r :: rs => phLoop g tech gds mosP totP botExtW fuel true dy r rs

/-- The track-count property of one processed row (claim about step 2):
for transistor rows, the gate/drain-source intervals hold at least
`ng`/`nds` tracks, the gate interval exactly `ng` in `'R0'` orientation
and the drain/source interval exactly `nds` in the flipped orientation. -/
def trackOK (row : MasterM × TrackSpec) (gd : (K × K) × (K × K)) : Prop :=
  0 ≤ row.2.ng →
    ((row.2.ng : K) ≤ gd.1.2 - gd.1.1 ∧
     (row.2.nds : K) ≤ gd.2.2 - gd.2.1 ∧
     (row.2.orient = OrientM.R0 → gd.1.2 - gd.1.1 = (row.2.ng : K)) ∧
     (row.2.orient = OrientM.MX → gd.2.2 - gd.2.1 = (row.2.nds : K)))

/-! ## `AnalogBase._place` and `AnalogBase.draw_base`

`_place` builds the end rows, calls `_place_helper` with bottom extension
width 0, then repeatedly retries with `ext_first + 1` while the placement
is bottom-heavy, keeping a candidate only when it makes things no worse;
after the loop it unconditionally runs `import pdb; pdb.set_trace()` and
only then places the instances.  The helper is abstracted as an oracle
`H : Int → HRes` returning the data `_place` inspects
(`ext_list[0][0]`, `ext_list[-1][0]`, `tot_ntr`); observable actions are
recorded as a trace of events. -/
/-- What `_place` reads out of one `_place_helper` result. -/
structure HRes where
  extFirst : Int
  extLast : Int
  totNtr : Rat
  deriving DecidableEq, Repr

/-- Observable events of `_place` (and of `draw_base` around it). -/
inductive PlaceEv where
  | placeEnter : PlaceEv
  | helperCall : Int → PlaceEv
  | printExts : Int → Int → Rat → PlaceEv
  | printPick : PlaceEv
  | printAbort : PlaceEv
  | pdbSetTrace : PlaceEv
  | placeInstances : PlaceEv
  deriving DecidableEq, Repr

/-- The rejection test of the candidate loop:
`tot_ntr_next > tot_ntr or abs(ext_last - ext_first) <
abs(ext_last_next - ext_first_next)`. -/
def placeReject (best cand : HRes) : Prop :=
  best.totNtr < cand.totNtr ∨
    |best.extLast - best.extFirst| < |cand.extLast - cand.extFirst|

instance (best cand : HRes) : Decidable (placeReject best cand) := by
  unfold placeReject; infer_instance

/-- The `while ext_first < ext_last - 1` candidate loop of `_place`,
with fuel (`none` models non-termination). -/
def placeLoop (H : Int → HRes) : Nat → HRes → Option (HRes × List PlaceEv)
  | 0, best =>
    if best.extFirst < best.extLast - 1 then none else some (best, [])
  | f + 1, best =>
    if best.extFirst < best.extLast - 1 then
      if placeReject best (H (best.extFirst + 1)) then
        some (best,
          [PlaceEv.helperCall (best.extFirst + 1),
           PlaceEv.printExts (H (best.extFirst + 1)).extFirst
             (H (best.extFirst + 1)).extLast (H (best.extFirst + 1)).totNtr,
           PlaceEv.printAbort])
      else
        (placeLoop H f (H (best.extFirst + 1))).map
          (fun p => (p.1,
            PlaceEv.helperCall (best.extFirst + 1) ::
            PlaceEv.printExts (H (best.extFirst + 1)).extFirst
              (H (best.extFirst + 1)).extLast (H (best.extFirst + 1)).totNtr ::
            PlaceEv.printPick :: p.2))
    else
      some (best, [])

/-- `AnalogBase._place`: first helper call with `bot_ext_w = 0`, the
candidate loop, then the unconditional `pdb.set_trace()` and the
instance placement. -/
def placeTrace (H : Int → HRes) (fuel : Nat) : Option (HRes × List PlaceEv) :=
  (placeLoop H fuel (H 0)).map
    (fun p => (p.1,
      (PlaceEv.placeEnter :: PlaceEv.helperCall 0 ::
        PlaceEv.printExts (H 0).extFirst (H 0).extLast (H 0).totNtr :: p.2)
      ++ [PlaceEv.pdbSetTrace, PlaceEv.placeInstances]))

/-- `AnalogBase.draw_base`: the error check on empty row lists, master
creation, then exactly one `_place` call. -/
def drawBaseTrace (numn nump : Nat) (H : Int → HRes) (fuel : Nat) :
    Option (Except String (HRes × List PlaceEv)) :=
  if numn = 0 ∧ nump = 0 then
    some (Except.error "Cannot make empty AnalogBase.")
  else
    (placeTrace H fuel).map Except.ok

/-- The sequence of `bot_ext_w` arguments passed to `_place_helper`,
read off a trace. -/
def helperCalls (evs : List PlaceEv) : List Int :=
  evs.filterMap (fun e =>
    match e with
    | PlaceEv.helperCall w => some w
    | _ => none)

/-- The candidate-selection protocol of `_place`'s while loop, as the
spec describes it: starting from the current best, either the loop
condition fails and nothing more is tried; or the next candidate is
computed at `ext_first + 1` and rejected (it increases `tot_ntr` or the
imbalance `|ext_last - ext_first|`), ending the loop; or it is accepted
(it increases neither) and the loop continues from it. -/
inductive LoopRel (H : Int → HRes) : HRes → HRes → List Int → Prop where
  | stop : ∀ best, ¬ (best.extFirst < best.extLast - 1) →
      LoopRel H best best []
  | abort : ∀ best, best.extFirst < best.extLast - 1 →
      placeReject best (H (best.extFirst + 1)) →
      LoopRel H best best [best.extFirst + 1]
  | accept : ∀ best r calls, best.extFirst < best.extLast - 1 →
      ¬ placeReject best (H (best.extFirst + 1)) →
      LoopRel H (H (best.extFirst + 1)) r calls →
      LoopRel H best r ((best.extFirst + 1) :: calls)

/-- A degenerate routing grid for witnesses: every query returns 0. -/
def gTest : GridM Int := ⟨0, 0, 0, fun _ => 0, fun _ => 0, fun _ => 0, fun _ => 0, fun _ => 0⟩

/-- A technology class for witnesses with valid extension widths `[0, 1]`. -/
def techTest : TechClsM := ⟨fun _ _ => [0, 1]⟩

/-- A degenerate row master for witnesses. -/
def mTest : MasterM := ⟨0, 0, 0, 0, (0, 0), (0, 0), 0, 0⟩

/-- Witness rows: bottom substrate, one transistor row, top substrate. -/
def rowsTest : List (MasterM × TrackSpec) :=
  [(mTest, ⟨OrientM.MX, -1, -1⟩), (mTest, ⟨OrientM.R0, 1, 1⟩),
   (mTest, ⟨OrientM.MX, -1, -1⟩)]

/-- The `_place_helper` result on the witness rows. -/
def resTest : PHRes Int :=
  ⟨[0, 0, 0], [⟨0, 0, 0⟩, ⟨0, 0, 0⟩], 0, [(0, 0), (0, 1), (0, 0)],
   [(0, 0), (1, 2), (0, 0)]⟩

/-- A one-row `LaygoBase` state for the C8 witness. -/
def lbTest : LaygoBaseSt Nat Nat := ⟨[LaygoIntvSetM.empty]⟩

/-- Concrete technology parameters for the C9 witness. -/
def tpTest : TechVal :=
  TechVal.sub [("layout", TechVal.sub
    [("mos_tech_class", TechVal.cls 3),
     ("analog_base", TechVal.sub [("min_fg_sep", TechVal.num 2)])])]

/-- The routing grid carrying `tpTest`. -/
def gridTestC9 : RoutingGridM := ⟨⟨tpTest⟩⟩

/-- A technology-class interpretation for the C9 witness. -/
def interpTest : TechVal → MOSTechM := fun _ => ⟨5, 4, 1⟩

/-! ## Theorems -/

theorem ceilMul_dvd (a b : Int) : b ∣ ceilMul a b := ⟨-(pydiv (-a) b), by unfold ceilMul; ring⟩

theorem le_ceilMul (a b : Int) (hb : 0 < b) : a ≤ ceilMul a b := by
  unfold ceilMul pydiv
  rw [Int.fdiv_eq_ediv _ (le_of_lt hb)]
  have h := Int.ediv_mul_le (-a) (ne_of_gt hb)
  have h2 : -(-a / b) * b = -(-a / b * b) := by ring
  omega

theorem ceilMul_le (a b m : Int) (hb : 0 < b) (hdvd : b ∣ m) (ham : a ≤ m) :
    ceilMul a b ≤ m := by
  unfold ceilMul pydiv
  rw [Int.fdiv_eq_ediv _ (le_of_lt hb)]
  obtain ⟨k, rfl⟩ := hdvd
  have h1 : (-(b * k)) ≤ -a := by omega
  have h2 : (-(b * k)) / b = -k := by
    rw [Int.mul_comm]
    exact Int.neg_mul_ediv_cancel _ _ (ne_of_gt hb)
  have h3 : (-(b * k)) / b ≤ (-a) / b := Int.ediv_le_ediv hb h1
  rw [h2] at h3
  nlinarith

theorem pydiv_le_of_mul_le (q a b : Int) (hb : 0 < b) (h : q * b ≤ a) :
    q ≤ pydiv a b := by
  unfold pydiv
  rw [Int.fdiv_eq_ediv _ (le_of_lt hb)]
  exact Int.le_ediv_of_mul_le hb h

/-- Key-membership after one `_end_flags` toggle. -/
theorem any_flagToggle (fl : List (Int × β)) (k : Int) (v : β) (p : Int) :
    (flagToggle fl k v).any (fun q => q.1 == p) =
      if p = k then !(fl.any (fun q => q.1 == k))
      else fl.any (fun q => q.1 == p) := by
  unfold flagToggle
  by_cases h : fl.any (fun q => q.1 == k)
  · simp only [h, if_true]
    by_cases hpk : p = k
    · subst hpk
      simp only [if_true, h, Bool.not_true]
      simp only [List.any_eq_false, List.mem_filter, beq_iff_eq]
      rintro ⟨q1, q2⟩ ⟨_, hne⟩
      simpa using hne
    · simp only [if_neg hpk]
      rcases hfl : fl.any (fun q => q.1 == p) with _ | _
      · simp only [List.any_eq_false] at hfl ⊢
        intro q hq
        exact hfl q (List.mem_of_mem_filter hq)
      · simp only [List.any_eq_true] at hfl ⊢
        obtain ⟨q, hq, hqp⟩ := hfl
        refine ⟨q, List.mem_filter.mpr ⟨hq, ?_⟩, hqp⟩
        simp only [beq_iff_eq] at hqp ⊢
        simp [hqp, hpk]
  · simp only [h, if_false]
    by_cases hpk : p = k
    · subst hpk
      simp [h]
    · have hkp : (k == p) = false := by
        simp only [beq_eq_false_iff_ne, ne_eq]
        exact fun hh => hpk hh.symm
      simp [hkp, hpk]

theorem add_preserves_inv (st : LaygoIntvSetM α β) (iv : Intv) (ext : α)
    (endl endr : β) (hiv : iv.1 < iv.2) (hp : ProperIntvs st) (hf : FlagInv st) :
    ProperIntvs (st.add iv ext endl endr).2 ∧ FlagInv (st.add iv ext endl endr).2 := by
  obtain ⟨s, e⟩ := iv
  simp only at hiv
  by_cases hovB : st.intv.items.any (fun p => decide (intvOverlap p.1 (s, e))) = true
  · have hadd : st.add (s, e) ext endl endr = (false, st) := by
      unfold LaygoIntvSetM.add IntervalSetM.addIS
      simp [hovB]
    rw [hadd]
    exact ⟨hp, hf⟩
  · have hovF : st.intv.items.any (fun p => decide (intvOverlap p.1 (s, e))) = false := by
      rwa [Bool.not_eq_true] at hovB
    have hov' : ∀ q ∈ st.intv.items, ¬ intvOverlap q.1 (s, e) := by
      intro q hq
      have := List.any_eq_false.mp hovF q hq
      simpa using this
    have hadd : st.add (s, e) ext endl endr =
        (true, ⟨⟨((s, e), ext) :: st.intv.items⟩,
                flagToggle (flagToggle st.endFlags s endl) e endr⟩) := by
      unfold LaygoIntvSetM.add IntervalSetM.addIS
      simp [hovF]
    rw [hadd]
    have hns : st.isStart s = false := by
      simp only [LaygoIntvSetM.isStart, List.any_eq_false, beq_iff_eq]
      rintro ⟨⟨a, b⟩, q⟩ hq hab
      have hpr := hp _ hq
      have h3 := hov' _ hq
      simp only at hpr hab
      subst hab
      unfold intvOverlap at h3
      simp only [not_lt, max_self] at h3
      exact absurd h3 (not_le.mpr (lt_min hpr hiv))
    have hne : st.isStop e = false := by
      simp only [LaygoIntvSetM.isStop, List.any_eq_false, beq_iff_eq]
      rintro ⟨⟨a, b⟩, q⟩ hq hab
      have hpr := hp _ hq
      have h3 := hov' _ hq
      simp only at hpr hab
      subst hab
      unfold intvOverlap at h3
      simp only [not_lt, min_self] at h3
      exact absurd h3 (not_le.mpr (max_lt hpr hiv))
    constructor
    · rintro ⟨⟨a, b⟩, q⟩ hq
      rcases List.mem_cons.mp hq with h1 | h2
      · injection h1 with h1 _
        injection h1 with ha hb
        simp only at ha hb ⊢
        omega
      · exact hp _ h2
    · intro p
      show (flagToggle (flagToggle st.endFlags s endl) e endr).any (fun q => q.1 == p) =
        xor ((((s, e), ext) :: st.intv.items).any (fun q => q.1.1 == p))
            ((((s, e), ext) :: st.intv.items).any (fun q => q.1.2 == p))
      have htog := any_flagToggle (flagToggle st.endFlags s endl) e endr p
      have htog2 := any_flagToggle st.endFlags s endl p
      have htog3 := any_flagToggle st.endFlags s endl e
      have hFp := hf p
      simp only [LaygoIntvSetM.hasFlag, LaygoIntvSetM.isStart, LaygoIntvSetM.isStop] at hFp hns hne
      simp only [List.any_cons]
      by_cases hpe : p = e
      · subst hpe
        rw [htog, if_pos rfl, htog3, if_neg (by omega), hFp, hne]
        have hsp : (s == p) = false := by
          simp only [beq_eq_false_iff_ne, ne_eq]
          omega
        have hpp : (p == p) = true := by simp
        rw [hsp, hpp]
        cases hA : st.intv.items.any (fun q => q.1.1 == p) <;> simp [hA]
      · by_cases hps : p = s
        · subst hps
          rw [htog, if_neg hpe, htog2, if_pos rfl, hFp, hns]
          have hpp : (p == p) = true := by simp
          have hep : (e == p) = false := by
            simp only [beq_eq_false_iff_ne, ne_eq]
            exact fun hh => hpe hh.symm
          rw [hpp, hep]
          cases hB : st.intv.items.any (fun q => q.1.2 == p) <;> simp [hB]
        · rw [htog, if_neg hpe, htog2, if_neg hps, hFp]
          have hsp : (s == p) = false := by
            simp only [beq_eq_false_iff_ne, ne_eq]
            exact fun hh => hps hh.symm
          have hep : (e == p) = false := by
            simp only [beq_eq_false_iff_ne, ne_eq]
            exact fun hh => hpe hh.symm
          rw [hsp, hep]
          simp

/-- The boundary invariant holds for every state reachable by a sequence
of proper `add` requests from a fresh `LaygoIntvSet`. -/
theorem runAdds_inv (reqs : List (AddReq α β))
    (h : ∀ r ∈ reqs, r.iv.1 < r.iv.2) :
    ProperIntvs (runAdds reqs) ∧ FlagInv (runAdds reqs) := by
  unfold runAdds
  have main : ∀ (l : List (AddReq α β)) (st : LaygoIntvSetM α β),
      (∀ r ∈ l, r.iv.1 < r.iv.2) → ProperIntvs st → FlagInv st →
      ProperIntvs (l.foldl (fun st r => (st.add r.iv r.ext r.endl r.endr).2) st) ∧
        FlagInv (l.foldl (fun st r => (st.add r.iv r.ext r.endl r.endr).2) st) := by
    intro l
    induction l with
    | nil => intro st _ hp hf; exact ⟨hp, hf⟩
    | cons r l ih =>
      intro st hl hp hf
      have hr := hl r (List.mem_cons_self r l)
      have hstep := add_preserves_inv st r.iv r.ext r.endl r.endr hr hp hf
      exact ih _ (fun q hq => hl q (List.mem_cons_of_mem r hq)) hstep.1 hstep.2
  refine main reqs LaygoIntvSetM.empty h ?_ ?_
  · rintro q hq; simp [LaygoIntvSetM.empty] at hq
  · intro p; simp [LaygoIntvSetM.empty, LaygoIntvSetM.hasFlag, LaygoIntvSetM.isStart,
      LaygoIntvSetM.isStop]

theorem add_fst (st : LaygoIntvSetM α β) (iv : Intv) (ext : α) (endl endr : β) :
    (st.add iv ext endl endr).1 =
      !(st.intv.items.any (fun p => decide (intvOverlap p.1 iv))) := by
  unfold LaygoIntvSetM.add IntervalSetM.addIS
  by_cases h : st.intv.items.any (fun p => decide (intvOverlap p.1 iv)) <;> simp [h]

theorem add_snd_ok (st : LaygoIntvSetM α β) (iv : Intv) (ext : α) (endl endr : β)
    (h : st.intv.items.any (fun p => decide (intvOverlap p.1 iv)) = false) :
    (st.add iv ext endl endr).2 =
      ⟨⟨(iv, ext) :: st.intv.items⟩,
        flagToggle (flagToggle st.endFlags iv.1 endl) iv.2 endr⟩ := by
  unfold LaygoIntvSetM.add IntervalSetM.addIS
  simp [h]

theorem add_snd_fail (st : LaygoIntvSetM α β) (iv : Intv) (ext : α) (endl endr : β)
    (h : st.intv.items.any (fun p => decide (intvOverlap p.1 iv)) = true) :
    (st.add iv ext endl endr).2 = st := by
  unfold LaygoIntvSetM.add IntervalSetM.addIS
  simp [h]

theorem any_overlap_iff_blocked (ext : α) (c sp nC : Int) (s : Nat)
    (row : LaygoIntvSetM α β) (orig : List (Intv × α))
    (hitems : row.intv.items =
      ((List.range s).map (fun k => (copyIntv c sp nC k, ext))).reverse ++ orig) :
    (row.intv.items.any
        (fun p => decide (intvOverlap p.1 (copyIntv c sp nC s)))) = true ↔
      copyBlocked orig c sp nC s := by
  rw [hitems]
  simp only [List.any_eq_true, List.mem_append, List.mem_reverse, List.mem_map,
    List.mem_range, decide_eq_true_eq, copyBlocked]
  constructor
  · rintro ⟨p, hp | hp, hov⟩
    · obtain ⟨j, hj, rfl⟩ := hp
      exact Or.inr ⟨j, hj, hov⟩
    · exact Or.inl ⟨p, hp, hov⟩
  · rintro (⟨q, hq, hov⟩ | ⟨j, hj, hov⟩)
    · exact ⟨q, Or.inr hq, hov⟩
    · exact ⟨(copyIntv c sp nC j, ext), Or.inl ⟨j, hj, rfl⟩, hov⟩

theorem addPrimCopies_spec (rowIdx : Int) (ext : α) (endl endr : β) (c sp nC : Int) :
    ∀ (n s : Nat) (row : LaygoIntvSetM α β) (orig : List (Intv × α)),
    row.intv.items =
        ((List.range s).map (fun k => (copyIntv c sp nC k, ext))).reverse ++ orig →
    (∀ j, j < s → ¬ copyBlocked orig c sp nC j) →
    (match addPrimCopies rowIdx ext endl endr c sp nC n s row with
     | Except.ok row' =>
         (∀ i, i < s + n → ¬ copyBlocked orig c sp nC i) ∧
         row'.intv.items =
           ((List.range (s + n)).map (fun k => (copyIntv c sp nC k, ext))).reverse ++ orig
     | Except.error x =>
         ∃ k, s ≤ k ∧ k < s + n ∧ copyBlocked orig c sp nC k ∧
           (∀ j, j < k → ¬ copyBlocked orig c sp nC j) ∧
           x.2.intv.items =
             ((List.range k).map (fun k => (copyIntv c sp nC k, ext))).reverse ++ orig) := by
  intro n
  induction n with
  | zero =>
    intro s row orig hitems hmin
    simp only [addPrimCopies]
    exact ⟨fun i hi => hmin i (by omega), by simpa using hitems⟩
  | succ n ih =>
    intro s row orig hitems hmin
    simp only [addPrimCopies]
    by_cases hany : row.intv.items.any
        (fun p => decide (intvOverlap p.1 (copyIntv c sp nC s))) = true
    · have h1 : (row.add (copyIntv c sp nC s) ext endl endr).1 = false := by
        rw [add_fst, hany]
        rfl
      rw [h1]
      simp only [if_false, Bool.false_eq_true]
      exact ⟨s, le_refl s, by omega,
        (any_overlap_iff_blocked ext c sp nC s row orig hitems).mp hany, hmin, hitems⟩
    · have hanyF : row.intv.items.any
          (fun p => decide (intvOverlap p.1 (copyIntv c sp nC s))) = false := by
        rwa [Bool.not_eq_true] at hany
      have h1 : (row.add (copyIntv c sp nC s) ext endl endr).1 = true := by
        rw [add_fst, hanyF]
        rfl
      rw [h1]
      simp only [if_true]
      have hnb : ¬ copyBlocked orig c sp nC s := by
        rw [← any_overlap_iff_blocked ext c sp nC s row orig hitems]
        simp [hanyF]
      have hitems' : (row.add (copyIntv c sp nC s) ext endl endr).2.intv.items =
          ((List.range (s + 1)).map (fun k => (copyIntv c sp nC k, ext))).reverse ++ orig := by
        rw [add_snd_ok row _ ext endl endr hanyF]
        simp only [List.range_succ, List.map_append, List.reverse_append, List.map_cons,
          List.map_nil, List.reverse_cons, List.reverse_nil, List.nil_append,
          List.cons_append, List.append_assoc]
        rw [hitems]
      have hmin' : ∀ j, j < s + 1 → ¬ copyBlocked orig c sp nC j := by
        intro j hj
        rcases Nat.lt_or_ge j s with h | h
        · exact hmin j h
        · have : j = s := by omega
          subst this
          exact hnb
      have hIH := ih (s + 1) _ orig hitems' hmin'
      cases hrun : addPrimCopies rowIdx ext endl endr c sp nC n (s + 1)
          (row.add (copyIntv c sp nC s) ext endl endr).2 with
      | ok row' =>
        rw [hrun] at hIH
        simp only at hIH ⊢
        obtain ⟨ha, hb⟩ := hIH
        refine ⟨fun i hi => ha i (by omega), ?_⟩
        have heq : s + 1 + n = s + (n + 1) := by omega
        rw [heq] at hb
        exact hb
      | error x =>
        rw [hrun] at hIH
        simp only at hIH ⊢
        obtain ⟨k, hk1, hk2, hk3, hk4, hk5⟩ := hIH
        exact ⟨k, by omega, by omega, hk3, hk4, hk5⟩

/-- C8: `add_laygo_primitive` raises `ValueError` iff the row index is
negative, at least the number of rows, or some copy `k < nx` has its
column interval `(col_idx + spx*k, col_idx + spx*k + num_col)`
overlapping a previously used interval of that row (including the
intervals recorded by the earlier copies of the same call); on success
all `nx` intervals are recorded and the created `Instance` is returned;
on failure at copy `k`, the intervals of copies `0..k-1` remain recorded
even though the call raises. -/
theorem addLaygoPrimitive_spec (st : LaygoBaseSt α β) (colIdx rowIdx numCol : Int)
    (ext : α) (endl endr : β) (nx : Nat) (spx : Int)
    (orig : List (Intv × α))
    (horig : (st.usedList.getD rowIdx.toNat LaygoIntvSetM.empty).intv.items = orig) :
    ((∃ e, addLaygoPrimitive st colIdx rowIdx numCol ext endl endr nx spx = Except.error e) ↔
       (rowIdx < 0 ∨ (st.usedList.length : Int) ≤ rowIdx ∨
         ∃ k < nx, copyBlocked orig colIdx spx numCol k)) ∧
    (∀ st' inst,
       addLaygoPrimitive st colIdx rowIdx numCol ext endl endr nx spx =
           Except.ok (st', inst) →
       inst = ⟨"XR" ++ toString rowIdx ++ "C" ++ toString colIdx, nx⟩ ∧
       ∃ row', st' = ⟨st.usedList.set rowIdx.toNat row'⟩ ∧
         row'.intv.items =
           ((List.range nx).map (fun k => (copyIntv colIdx spx numCol k, ext))).reverse
             ++ orig ∧
         ∀ k, k < nx → (copyIntv colIdx spx numCol k, ext) ∈ row'.intv.items) ∧
    (∀ e, addLaygoPrimitive st colIdx rowIdx numCol ext endl endr nx spx =
           Except.error e →
       (rowIdx < 0 ∨ (st.usedList.length : Int) ≤ rowIdx → e.2 = st) ∧
       (0 ≤ rowIdx → rowIdx < (st.usedList.length : Int) →
         ∃ k, k < nx ∧ copyBlocked orig colIdx spx numCol k ∧
           (∀ j, j < k → ¬ copyBlocked orig colIdx spx numCol j) ∧
           ∃ rowE, e.2 = ⟨st.usedList.set rowIdx.toNat rowE⟩ ∧
             rowE.intv.items =
               ((List.range k).map (fun j => (copyIntv colIdx spx numCol j, ext))).reverse
                 ++ orig ∧
             ∀ j, j < k → (copyIntv colIdx spx numCol j, ext) ∈ rowE.intv.items)) := by
  by_cases hrow : rowIdx < 0 ∨ (st.usedList.length : Int) ≤ rowIdx
  · have hres : addLaygoPrimitive st colIdx rowIdx numCol ext endl endr nx spx =
        Except.error ("Cannot add primitive at row " ++ toString rowIdx, st) := by
      unfold addLaygoPrimitive
      rw [if_pos hrow]
    refine ⟨?_, ?_, ?_⟩
    · constructor
      · intro _
        rcases hrow with h | h
        · exact Or.inl h
        · exact Or.inr (Or.inl h)
      · intro _
        exact ⟨_, hres⟩
    · intro st' inst h
      rw [hres] at h
      exact absurd h (by simp)
    · intro e he
      rw [hres] at he
      injection he with he
      subst he
      exact ⟨fun _ => rfl, fun h1 h2 => absurd hrow (by omega)⟩
  · have hrow' : ¬ (rowIdx < 0 ∨ (st.usedList.length : Int) ≤ rowIdx) := hrow
    have hloop := addPrimCopies_spec rowIdx ext endl endr colIdx spx numCol nx 0
        (st.usedList.getD rowIdx.toNat LaygoIntvSetM.empty) orig
        (by simpa using horig) (by omega)
    have hres : addLaygoPrimitive st colIdx rowIdx numCol ext endl endr nx spx =
        match addPrimCopies rowIdx ext endl endr colIdx spx numCol nx 0
            (st.usedList.getD rowIdx.toNat LaygoIntvSetM.empty) with
        | Except.ok row' =>
          Except.ok (⟨st.usedList.set rowIdx.toNat row'⟩,
            ⟨"XR" ++ toString rowIdx ++ "C" ++ toString colIdx, nx⟩)
        | Except.error x => Except.error (x.1, ⟨st.usedList.set rowIdx.toNat x.2⟩) := by
      unfold addLaygoPrimitive
      rw [if_neg hrow']
    cases hrun : addPrimCopies rowIdx ext endl endr colIdx spx numCol nx 0
        (st.usedList.getD rowIdx.toNat LaygoIntvSetM.empty) with
    | ok row' =>
      rw [hrun] at hres hloop
      simp only at hloop
      obtain ⟨hnoblk, hitems⟩ := hloop
      refine ⟨?_, ?_, ?_⟩
      · constructor
        · rintro ⟨e, he⟩
          rw [hres] at he
          exact absurd he (by simp)
        · rintro (h | h | ⟨k, hk, hblk⟩)
          · omega
          · omega
          · exact absurd hblk (hnoblk k (by omega))
      · intro st' inst h
        rw [hres] at h
        injection h with h
        injection h with h1 h2
        subst h1
        refine ⟨h2.symm, row', rfl, by simpa using hitems, ?_⟩
        intro k hk
        rw [hitems]
        apply List.mem_append_left
        rw [List.mem_reverse]
        exact List.mem_map.mpr ⟨k, by simpa using hk, rfl⟩
      · intro e he
        rw [hres] at he
        exact absurd he (by simp)
    | error x =>
      rw [hrun] at hres hloop
      simp only at hloop
      obtain ⟨k, _, hk2, hblk, hmin, hitems⟩ := hloop
      refine ⟨?_, ?_, ?_⟩
      · constructor
        · intro _
          exact Or.inr (Or.inr ⟨k, by omega, hblk⟩)
        · intro _
          exact ⟨_, hres⟩
      · intro st' inst h
        rw [hres] at h
        exact absurd h (by simp)
      · intro e he
        rw [hres] at he
        injection he with he
        subst he
        refine ⟨fun h => absurd h hrow', fun _ _ => ⟨k, by omega, hblk, hmin, x.2, rfl, hitems, ?_⟩⟩
        intro j hj
        rw [hitems]
        apply List.mem_append_left
        rw [List.mem_reverse]
        exact List.mem_map.mpr ⟨j, by simpa using hj, rfl⟩

theorem lastElem_mem : ∀ (l : List Int), l ≠ [] → lastElem l ∈ l := by
  intro l
  induction l with
  | nil => intro h; cases h rfl
  | cons a t ih =>
    intro _
    cases t with
    | nil => simp [lastElem]
    | cons b t' =>
      have h2 := ih (by simp)
      have h3 : lastElem (a :: b :: t') = lastElem (b :: t') := rfl
      rw [h3]
      exact List.mem_cons_of_mem a h2

theorem le_bumpExt (l : List Int) (w : Int) : w ≤ bumpExt l w := by
  unfold bumpExt
  split
  · rcases hfg : firstGreater l w with _ | x
    · simp [hfg]
    · have hx := List.find?_some hfg
      simp only [decide_eq_true_eq] at hx
      simp only [hfg, Option.getD_some]
      omega
  · exact le_refl w

theorem bumpExt_quant (l : List Int) (w : Int) (hl : l ≠ []) :
    bumpExt l w ∈ l ∨ lastElem l ≤ bumpExt l w := by
  unfold bumpExt
  split
  case isTrue h =>
    rcases hfg : firstGreater l w with _ | x
    · exfalso
      have := List.find?_eq_none.mp hfg (lastElem l) (lastElem_mem l hl)
      simp only [decide_eq_true_eq] at this
      omega
    · left
      simp only [hfg, Option.getD_some]
      exact List.mem_of_find?_eq_some hfg
  case isFalse h =>
    rcases not_and_or.mp h with h1 | h2
    · left
      exact not_not.mp h1
    · right
      omega

theorem lastBlockLoop_spec (l : List Int) (mosP totP yTopCur nextH : Int)
    (hm : 0 < mosP) (ht : 0 < totP) :
    ∀ (fuel : Nat) (extW yNext w y : Int),
      lastBlockLoop l mosP totP yTopCur nextH fuel extW yNext = some (w, y) →
      extW ≤ w ∧ (w ∈ l ∨ lastElem l ≤ w) := by
  intro fuel
  induction fuel with
  | zero =>
    intro extW yNext w y h
    unfold lastBlockLoop at h
    split at h
    · cases h
    case isFalse hc =>
      injection h with h
      injection h with h1 h2
      subst h1
      refine ⟨le_refl _, ?_⟩
      rcases not_and_or.mp hc with h1 | h2
      · exact Or.inl (not_not.mp h1)
      · exact Or.inr (by omega)
  | succ f ih =>
    intro extW yNext w y h
    unfold lastBlockLoop at h
    split at h
    case isTrue hc =>
      simp only [] at h
      have hstep := ih _ _ _ _ h
      refine ⟨?_, hstep.2⟩
      have h1 : extW ≤ (firstGreater l extW).getD extW := by
        rcases hfg : firstGreater l extW with _ | x
        · simp [hfg]
        · have hx := List.find?_some hfg
          simp only [decide_eq_true_eq] at hx
          simp only [hfg, Option.getD_some]
          omega
      have h2 : yTopCur + (firstGreater l extW).getD extW * mosP + nextH ≤
          ceilMul (yTopCur + (firstGreater l extW).getD extW * mosP + nextH) totP :=
        le_ceilMul _ _ ht
      have h3 : (firstGreater l extW).getD extW ≤
          pydiv (ceilMul (yTopCur + (firstGreater l extW).getD extW * mosP + nextH) totP
            - nextH - yTopCur) mosP := by
        apply pydiv_le_of_mul_le _ _ _ hm
        linarith
      linarith [hstep.1]
    case isFalse hc =>
      injection h with h
      injection h with h1 h2
      subst h1
      refine ⟨le_refl _, ?_⟩
      rcases not_and_or.mp hc with h1 | h2
      · exact Or.inl (not_not.mp h1)
      · exact Or.inr (by omega)

theorem minExtW_ge_bot (l : List Int) (botExtW yNextMin0 yTopCur mosP : Int) :
    botExtW ≤ minExtW l botExtW yNextMin0 yTopCur mosP true := by
  unfold minExtW
  have h1 : botExtW ≤ max (if true = true then max (l.headD 0) botExtW else l.headD 0)
      (pydiv (yNextMin0 - yTopCur) mosP) := by
    simp only [if_pos rfl]
    exact le_max_of_le_left (le_max_right _ _)
  exact le_trans h1 (le_bumpExt _ _)

theorem yNextMinF_ge (l : List Int) (botExtW yNextMin0 yTopCur mosP : Int)
    (isFirst : Bool) :
    yTopCur + minExtW l botExtW yNextMin0 yTopCur mosP isFirst * mosP ≤
      yNextMinF l botExtW yNextMin0 yTopCur mosP isFirst :=
  le_max_right _ _

theorem yNextMid_ge (g : GridM K) (gds mosP : Int) (trNext : K) (yNextMin : Int)
    (next : MasterM × TrackSpec) :
    yNextMin ≤ yNextMid g gds mosP trNext yNextMin next := by
  unfold yNextMid
  split
  · exact le_refl _
  · split
    · exact le_max_right _ _
    · exact le_max_right _ _

theorem yNextMinF_dvd (l : List Int) (botExtW yNextMin0 yTopCur mosP : Int)
    (isFirst : Bool) (h0 : mosP ∣ yNextMin0) (hTop : mosP ∣ yTopCur) :
    mosP ∣ yNextMinF l botExtW yNextMin0 yTopCur mosP isFirst := by
  unfold yNextMinF
  rcases max_choice yNextMin0
      (yTopCur + minExtW l botExtW yNextMin0 yTopCur mosP isFirst * mosP) with h | h
  · rw [h]; exact h0
  · rw [h]; exact dvd_add hTop (Dvd.intro_left _ rfl)

theorem yNextMid_dvd (g : GridM K) (gds mosP : Int) (trNext : K) (yNextMin : Int)
    (next : MasterM × TrackSpec) (h0 : mosP ∣ yNextMin) :
    mosP ∣ yNextMid g gds mosP trNext yNextMin next := by
  unfold yNextMid
  split
  · exact h0
  · split
    · rcases max_choice (ceilMul (g.trackToCoord (trNext + (next.2.ng : K) - 1)
          - next.1.gConnY.2 + connDelta g) mosP) yNextMin with h | h
      · rw [h]; exact ceilMul_dvd _ _
      · rw [h]; exact h0
    · rcases max_choice (ceilMul (g.trackToCoord (trNext + (next.2.nds : K)
          + (gds : K) - 1) - (next.1.arrHeight - next.1.dConnY.1)
          + connDelta g) mosP) yNextMin with h | h
      · rw [h]; exact ceilMul_dvd _ _
      · rw [h]; exact h0

theorem extToNextCore_spec (g : GridM K) (gds mosP totP botExtW : Int) (fuel : Nat)
    (isFirst isLast : Bool) (yTopCur : Int) (trNext : K) (yNextMin0 : Int)
    (next : MasterM × TrackSpec) (l : List Int) (w y : Int)
    (hm : 0 < mosP) (ht : 0 < totP) (hl : l ≠ [])
    (h : extToNextCore g gds mosP totP botExtW fuel isFirst isLast yTopCur trNext
        yNextMin0 next l = some (w, y)) :
    (w ∈ l ∨ lastElem l ≤ w) ∧ (isFirst = true → botExtW ≤ w) := by
  unfold extToNextCore at h
  split at h
  · -- last block: the while loop
    have hspec := lastBlockLoop_spec l mosP totP yTopCur next.1.height hm ht _ _ _ _ _ h
    refine ⟨hspec.2, ?_⟩
    rintro rfl
    have h1 : yTopCur + minExtW l botExtW yNextMin0 yTopCur mosP true * mosP ≤
        yNextMinF l botExtW yNextMin0 yTopCur mosP true := yNextMinF_ge _ _ _ _ _ _
    have h2 : yNextMinF l botExtW yNextMin0 yTopCur mosP true + next.1.height ≤
        ceilMul (yNextMinF l botExtW yNextMin0 yTopCur mosP true + next.1.height) totP :=
      le_ceilMul _ _ ht
    have h3 : minExtW l botExtW yNextMin0 yTopCur mosP true ≤
        pydiv (ceilMul (yNextMinF l botExtW yNextMin0 yTopCur mosP true
          + next.1.height) totP - next.1.height - yTopCur) mosP := by
      apply pydiv_le_of_mul_le _ _ _ hm
      linarith
    linarith [minExtW_ge_bot l botExtW yNextMin0 yTopCur mosP, hspec.1]
  · -- middle block
    injection h with h
    injection h with h1 h2
    subst h1
    refine ⟨bumpExt_quant _ _ hl, ?_⟩
    rintro rfl
    have h1 : yTopCur + minExtW l botExtW yNextMin0 yTopCur mosP true * mosP ≤
        yNextMinF l botExtW yNextMin0 yTopCur mosP true := yNextMinF_ge _ _ _ _ _ _
    have h2 : yNextMinF l botExtW yNextMin0 yTopCur mosP true ≤
        yNextMid g gds mosP trNext (yNextMinF l botExtW yNextMin0 yTopCur mosP true)
          next := yNextMid_ge _ _ _ _ _ _
    have h3 : minExtW l botExtW yNextMin0 yTopCur mosP true ≤
        pydiv (yNextMid g gds mosP trNext
          (yNextMinF l botExtW yNextMin0 yTopCur mosP true) next - yTopCur) mosP := by
      apply pydiv_le_of_mul_le _ _ _ hm
      linarith
    have h4 := minExtW_ge_bot l botExtW yNextMin0 yTopCur mosP
    have h5 := le_bumpExt l (pydiv (yNextMid g gds mosP trNext
      (yNextMinF l botExtW yNextMin0 yTopCur mosP true) next - yTopCur) mosP)
    linarith

theorem extToNextCore_dvd (g : GridM K) (gds mosP totP botExtW : Int) (fuel : Nat)
    (isFirst : Bool) (yTopCur : Int) (trNext : K) (yNextMin0 : Int)
    (next : MasterM × TrackSpec) (l : List Int) (w y : Int)
    (h0 : mosP ∣ yNextMin0) (hTop : mosP ∣ yTopCur)
    (h : extToNextCore g gds mosP totP botExtW fuel isFirst false yTopCur trNext
        yNextMin0 next l = some (w, y)) :
    mosP ∣ y := by
  unfold extToNextCore at h
  simp only [Bool.false_eq_true, if_false] at h
  injection h with h
  injection h with h1 h2
  subst h2
  exact yNextMid_dvd _ _ _ _ _ _ (yNextMinF_dvd _ _ _ _ _ _ h0 hTop)

theorem extToNext_spec (g : GridM K) (tech : TechClsM) (gds mosP totP botExtW : Int)
    (fuel : Nat) (isFirst isLast : Bool) (yTopCur : Int) (trNext : K)
    (yNextMin0 : Int) (cur next : MasterM × TrackSpec) (er : ExtRec) (y : Int)
    (hm : 0 < mosP) (ht : 0 < totP)
    (h : extToNext g tech gds mosP totP botExtW fuel isFirst isLast yTopCur trNext
        yNextMin0 cur next = some (er, y)) :
    (er.w ∈ tech.validExtWidths er.top er.bot ∨
      lastElem (tech.validExtWidths er.top er.bot) ≤ er.w) ∧
    (isFirst = true → botExtW ≤ er.w) ∧
    (isLast = false → mosP ∣ yNextMin0 → mosP ∣ yTopCur → mosP ∣ y) := by
  unfold extToNext at h
  split at h
  · cases h
  case h_2 w0 tl hL =>
    rw [Option.map_eq_some'] at h
    obtain ⟨p, hp, hf⟩ := h
    injection hf with hf1 hf2
    subst hf2
    subst hf1
    simp only
    rw [hL]
    refine ⟨?_, ?_, ?_⟩
    · exact (extToNextCore_spec g gds mosP totP botExtW fuel isFirst isLast yTopCur
        trNext yNextMin0 next (w0 :: tl) p.1 p.2 hm ht (by simp) hp).1
    · exact (extToNextCore_spec g gds mosP totP botExtW fuel isFirst isLast yTopCur
        trNext yNextMin0 next (w0 :: tl) p.1 p.2 hm ht (by simp) hp).2
    · intro hlast h0 hTop
      subst hlast
      exact extToNextCore_dvd g gds mosP totP botExtW fuel isFirst yTopCur trNext
        yNextMin0 next (w0 :: tl) p.1 p.2 h0 hTop hp

theorem stepIntervals_trackOK (g : GridM K) (gds : Int) (yCur : Int) (m : MasterM)
    (sp : TrackSpec) :
    trackOK (m, sp)
      ((stepIntervals g gds yCur m sp).gIntv, (stepIntervals g gds yCur m sp).dIntv) := by
  dsimp only [trackOK]
  intro hng
  unfold stepIntervals
  split
  case isTrue hlt => omega
  case isFalse hlt =>
    split
    case isTrue hR0 =>
      dsimp only
      refine ⟨by linarith, ?_, fun _ => by ring, ?_⟩
      · have h1 : max (g.coordToTrackUp (m.dConnY.1 + yCur + connDelta g))
            (g.coordToTrackDown (m.gConnY.2 + yCur - connDelta g) + (gds : K) + 1)
            + (sp.nds : K) - 1 ≤
            max (max (g.coordToTrackUp (m.dConnY.1 + yCur + connDelta g))
              (g.coordToTrackDown (m.gConnY.2 + yCur - connDelta g) + (gds : K) + 1)
              + (sp.nds : K) - 1)
              (g.coordToTrackUp (m.dConnY.2 + yCur - connDelta g)) := le_max_left _ _
        linarith
      · intro hMX
        rw [hR0] at hMX
        cases hMX
    case isFalse hR0 =>
      dsimp only
      refine ⟨?_, by linarith, ?_, fun _ => by ring⟩
      · have h1 : g.coordToTrackUp (yCur + m.height - m.gConnY.2 + connDelta g)
            + (sp.ng : K) - 1 ≤
            max (g.coordToTrackUp (yCur + m.height - m.gConnY.2 + connDelta g)
              + (sp.ng : K) - 1)
              (g.coordToTrackUp (yCur + m.height - m.gConnY.1 - connDelta g)) :=
          le_max_left _ _
        linarith
      · intro hR0'
        rw [hR0'] at hR0
        exact absurd rfl hR0

theorem extToNext_dvd (g : GridM K) (tech : TechClsM)
    (gds mosP totP botExtW : Int) (fuel : Nat) (isFirst : Bool) (yTopCur : Int)
    (trNext : K) (yNextMin0 : Int) (cur next : MasterM × TrackSpec)
    (er : ExtRec) (y : Int)
    (h : extToNext g tech gds mosP totP botExtW fuel isFirst false yTopCur trNext
        yNextMin0 cur next = some (er, y))
    (h0 : mosP ∣ yNextMin0) (hTop : mosP ∣ yTopCur) : mosP ∣ y := by
  unfold extToNext at h
  split at h
  · cases h
  case h_2 w0 tl hL =>
    rw [Option.map_eq_some'] at h
    obtain ⟨p, hp, hf⟩ := h
    injection hf with hf1 hf2
    subst hf2
    exact extToNextCore_dvd g gds mosP totP botExtW fuel isFirst yTopCur trNext
      yNextMin0 next (w0 :: tl) p.1 p.2 h0 hTop hp

theorem phLoop_trackOK (g : GridM K) (tech : TechClsM)
    (gds mosP totP botExtW : Int) (fuel : Nat) :
    ∀ (rest : List (MasterM × TrackSpec)) (cur : MasterM × TrackSpec)
      (isFirst : Bool) (yCur : Int) (res : PHRes K),
      phLoop g tech gds mosP totP botExtW fuel isFirst yCur cur rest = some res →
      List.Forall₂ trackOK (cur :: rest) (res.gtr.zip res.dtr) := by
  intro rest
  induction rest with
  | nil =>
    intro cur isFirst yCur res h
    unfold phLoop at h
    injection h with h
    subst h
    exact List.Forall₂.cons (stepIntervals_trackOK g gds yCur cur.1 cur.2)
      List.Forall₂.nil
  | cons next rest ih =>
    intro cur isFirst yCur res h
    unfold phLoop at h
    split at h
    · cases h
    case h_2 er yNext heq =>
      split at h
      · cases h
      case h_2 sub hsub =>
        injection h with h
        subst h
        exact List.Forall₂.cons (stepIntervals_trackOK g gds yCur cur.1 cur.2)
          (ih next false yNext sub hsub)

theorem phLoop_quant (g : GridM K) (tech : TechClsM)
    (gds mosP totP botExtW : Int) (fuel : Nat) (hm : 0 < mosP) (ht : 0 < totP) :
    ∀ (rest : List (MasterM × TrackSpec)) (cur : MasterM × TrackSpec)
      (isFirst : Bool) (yCur : Int) (res : PHRes K),
      phLoop g tech gds mosP totP botExtW fuel isFirst yCur cur rest = some res →
      (∀ er ∈ res.extList,
        er.w ∈ tech.validExtWidths er.top er.bot ∨
          lastElem (tech.validExtWidths er.top er.bot) ≤ er.w) ∧
      (isFirst = true → ∀ er0, res.extList.head? = some er0 → botExtW ≤ er0.w) := by
  intro rest
  induction rest with
  | nil =>
    intro cur isFirst yCur res h
    unfold phLoop at h
    injection h with h
    subst h
    exact ⟨by simp, by simp⟩
  | cons next rest ih =>
    intro cur isFirst yCur res h
    unfold phLoop at h
    split at h
    · cases h
    case h_2 er yNext heq =>
      split at h
      · cases h
      case h_2 sub hsub =>
        injection h with h
        subst h
        have hspec := extToNext_spec g tech gds mosP totP botExtW fuel isFirst
          rest.isEmpty _ _ _ cur next er yNext hm ht heq
        have hih := ih next false yNext sub hsub
        constructor
        · intro e he
          rcases List.mem_cons.mp he with rfl | he'
          · exact hspec.1
          · exact hih.1 e he'
        · intro hfirst er0 h0
          simp only [List.head?_cons, Option.some.injEq] at h0
          subst h0
          exact hspec.2.1 hfirst

theorem phLoop_dvd (g : GridM K) (tech : TechClsM)
    (gds mosP totP botExtW : Int) (fuel : Nat) :
    ∀ (rest : List (MasterM × TrackSpec)) (cur : MasterM × TrackSpec)
      (isFirst : Bool) (yCur : Int) (res : PHRes K),
      phLoop g tech gds mosP totP botExtW fuel isFirst yCur cur rest = some res →
      mosP ∣ yCur → (∀ r ∈ cur :: rest, mosP ∣ r.1.height) →
      ∀ i, i + 1 < res.yList.length → mosP ∣ res.yList.getD i 0 := by
  intro rest
  induction rest with
  | nil =>
    intro cur isFirst yCur res h hy hh i hi
    unfold phLoop at h
    injection h with h
    subst h
    simp at hi
  | cons next rest ih =>
    intro cur isFirst yCur res h hy hh i hi
    unfold phLoop at h
    split at h
    · cases h
    case h_2 er yNext heq =>
      split at h
      · cases h
      case h_2 sub hsub =>
        injection h with h
        subst h
        cases i with
        | zero => simpa using hy
        | succ j =>
          simp only [List.getD_cons_succ]
          cases rest with
          | nil =>
            exfalso
            unfold phLoop at hsub
            injection hsub with hsub
            subst hsub
            simp at hi
            omega
          | cons r2 rest2 =>
            have hlast : (r2 :: rest2 : List (MasterM × TrackSpec)).isEmpty = false := rfl
            rw [hlast] at heq
            have hyNext : mosP ∣ yNext :=
              extToNext_dvd g tech gds mosP totP botExtW fuel isFirst _ _ _ cur next
                er yNext heq (ceilMul_dvd _ _)
                (dvd_add hy (hh cur (List.mem_cons_self cur _)))
            exact ih next false yNext sub hsub hyNext
              (fun r hr => hh r (List.mem_cons_of_mem cur hr)) j (by
                simp only [List.length_cons] at hi
                omega)

theorem placeLoop_spec (H : Int → HRes) :
    ∀ (fuel : Nat) (best r : HRes) (evs : List PlaceEv),
      placeLoop H fuel best = some (r, evs) →
      LoopRel H best r (helperCalls evs) ∧
      PlaceEv.placeEnter ∉ evs ∧ PlaceEv.pdbSetTrace ∉ evs ∧
      PlaceEv.placeInstances ∉ evs := by
  intro fuel
  induction fuel with
  | zero =>
    intro best r evs h
    unfold placeLoop at h
    split at h
    · cases h
    case isFalse hc =>
      injection h with h
      injection h with h1 h2
      subst h1
      subst h2
      exact ⟨LoopRel.stop _ hc, by simp, by simp, by simp⟩
  | succ f ih =>
    intro best r evs h
    unfold placeLoop at h
    split at h
    case isTrue hc =>
      split at h
      case isTrue hrej =>
        injection h with h
        injection h with h1 h2
        subst h1
        subst h2
        refine ⟨?_, by simp [helperCalls], by simp [helperCalls], by simp [helperCalls]⟩
        have : helperCalls
            [PlaceEv.helperCall (best.extFirst + 1),
             PlaceEv.printExts (H (best.extFirst + 1)).extFirst
               (H (best.extFirst + 1)).extLast (H (best.extFirst + 1)).totNtr,
             PlaceEv.printAbort] = [best.extFirst + 1] := rfl
        rw [this]
        exact LoopRel.abort _ hc hrej
      case isFalse hrej =>
        rw [Option.map_eq_some'] at h
        obtain ⟨p, hp, hf⟩ := h
        injection hf with hf1 hf2
        subst hf1
        subst hf2
        obtain ⟨hrel, h1, h2, h3⟩ := ih _ _ _ hp
        refine ⟨?_, by simpa using h1, by simpa using h2, by simpa using h3⟩
        have : helperCalls
            (PlaceEv.helperCall (best.extFirst + 1) ::
              PlaceEv.printExts (H (best.extFirst + 1)).extFirst
                (H (best.extFirst + 1)).extLast (H (best.extFirst + 1)).totNtr ::
              PlaceEv.printPick :: p.2) = (best.extFirst + 1) :: helperCalls p.2 := rfl
        rw [this]
        exact LoopRel.accept _ _ _ hc hrej hrel
    case isFalse hc =>
      injection h with h
      injection h with h1 h2
      subst h1
      subst h2
      exact ⟨LoopRel.stop _ hc, by simp, by simp, by simp⟩

theorem le_lastElem_of_sorted :
    ∀ (l : List Int), l.Sorted (· ≤ ·) → ∀ x ∈ l, x ≤ lastElem l := by
  intro l
  induction l with
  | nil => intro _ x hx; cases hx
  | cons a t ih =>
    intro hs x hx
    cases t with
    | nil =>
      rcases List.mem_cons.mp hx with rfl | hx'
      · simp [lastElem]
      · cases hx'
    | cons b t' =>
      have hlast : lastElem (a :: b :: t') = lastElem (b :: t') := rfl
      rw [hlast]
      rcases List.mem_cons.mp hx with rfl | hx'
      · have hab : x ≤ b := (List.sorted_cons.mp hs).1 b (by simp)
        have hbl := ih hs.of_cons b (by simp)
        omega
      · exact ih hs.of_cons x hx'

theorem placeTrace_spec (H : Int → HRes) (fuel : Nat) (r : HRes)
    (evs : List PlaceEv) (h : placeTrace H fuel = some (r, evs)) :
    (∃ calls, helperCalls evs = 0 :: calls ∧ LoopRel H (H 0) r calls) ∧
    PlaceEv.pdbSetTrace ∈ evs ∧
    (∃ pre, evs = pre ++ [PlaceEv.pdbSetTrace, PlaceEv.placeInstances] ∧
       PlaceEv.pdbSetTrace ∉ pre ∧ PlaceEv.placeInstances ∉ pre) ∧
    (∃ a b c, PlaceEv.printExts a b c ∈ evs) ∧
    evs.count PlaceEv.placeEnter = 1 := by
  unfold placeTrace at h
  rw [Option.map_eq_some'] at h
  obtain ⟨p, hp, hf⟩ := h
  injection hf with hf1 hf2
  subst hf1
  subst hf2
  obtain ⟨hrel, hno1, hno2, hno3⟩ := placeLoop_spec H fuel (H 0) p.1 p.2 hp
  refine ⟨⟨helperCalls p.2, ?_, hrel⟩, by simp, ?_, ?_, ?_⟩
  · simp [helperCalls, List.filterMap_append]
  · refine ⟨PlaceEv.placeEnter :: PlaceEv.helperCall 0 ::
      PlaceEv.printExts (H 0).extFirst (H 0).extLast (H 0).totNtr :: p.2,
      by simp, ?_, ?_⟩
    · simp only [List.mem_cons]
      push_neg
      exact ⟨by simp, by simp, by simp, hno2⟩
    · simp only [List.mem_cons]
      push_neg
      exact ⟨by simp, by simp, by simp, hno3⟩
  · exact ⟨(H 0).extFirst, (H 0).extLast, (H 0).totNtr, by simp⟩
  · rw [List.count_append]
    simp only [List.count_cons]
    rw [List.count_eq_zero.mpr hno1]
    simp

/-- C1: every completed run of `AnalogBase._place` (and hence every
completed `AnalogBase.draw_base`, which invokes `_place`) prints the
`ext_w0 = ..., ext_wend=..., tot_ntr=...` diagnostic line and, after the
placement-candidate loop finishes, unconditionally executes
`import pdb; pdb.set_trace()` before placing any instance: the trace ends
with the debugger trap followed by instance placement, and no instance
placement happens before the trap. -/
theorem place_always_hits_pdb_trap :
    (∀ (H : Int → HRes) (fuel : Nat) (r : HRes) (evs : List PlaceEv),
       placeTrace H fuel = some (r, evs) →
       PlaceEv.pdbSetTrace ∈ evs ∧
       (∃ pre, evs = pre ++ [PlaceEv.pdbSetTrace, PlaceEv.placeInstances] ∧
          PlaceEv.placeInstances ∉ pre) ∧
       (∃ a b c, PlaceEv.printExts a b c ∈ evs)) ∧
    (∀ (numn nump : Nat) (H : Int → HRes) (fuel : Nat)
       (out : HRes × List PlaceEv),
       drawBaseTrace numn nump H fuel = some (Except.ok out) →
       PlaceEv.pdbSetTrace ∈ out.2) := by
  constructor
  · intro H fuel r evs h
    obtain ⟨_, h2, ⟨pre, hpre, _, hni⟩, h4, _⟩ := placeTrace_spec H fuel r evs h
    exact ⟨h2, ⟨pre, hpre, hni⟩, h4⟩
  · intro numn nump H fuel out h
    unfold drawBaseTrace at h
    split at h
    · injection h with h
      cases h
    · rw [Option.map_eq_some'] at h
      obtain ⟨p, hp, hf⟩ := h
      injection hf with hf
      subst hf
      exact (placeTrace_spec H fuel p.1 p.2 hp).2.1

/-- C1 witness: a concrete helper oracle for which `_place` completes;
the trace contains the debugger trap. -/
theorem place_always_hits_pdb_trap_witness :
    PlaceEv.pdbSetTrace ∈
      [PlaceEv.placeEnter, PlaceEv.helperCall 0, PlaceEv.printExts 0 0 0,
       PlaceEv.pdbSetTrace, PlaceEv.placeInstances] :=
  (place_always_hits_pdb_trap.1 (fun _ => ⟨0, 0, 0⟩) 1 ⟨0, 0, 0⟩
    [PlaceEv.placeEnter, PlaceEv.helperCall 0, PlaceEv.printExts 0 0 0,
     PlaceEv.pdbSetTrace, PlaceEv.placeInstances] rfl).1

/-- C3: `draw_base` runs `_place` exactly once, and `_place` computes
every candidate placement exclusively through `_place_helper`: the first
helper call uses bottom extension width 0, each further call uses the
current best's `ext_first + 1` while `ext_first < ext_last - 1`, and a
candidate is accepted only if it increases neither `tot_ntr` nor the
imbalance `|ext_last - ext_first|` (the `LoopRel` protocol). -/
theorem place_candidate_protocol :
    (∀ (H : Int → HRes) (fuel : Nat) (r : HRes) (evs : List PlaceEv),
       placeTrace H fuel = some (r, evs) →
       ∃ calls, helperCalls evs = 0 :: calls ∧ LoopRel H (H 0) r calls) ∧
    (∀ (numn nump : Nat) (H : Int → HRes) (fuel : Nat)
       (out : HRes × List PlaceEv),
       drawBaseTrace numn nump H fuel = some (Except.ok out) →
       out.2.count PlaceEv.placeEnter = 1 ∧
       ∃ calls, helperCalls out.2 = 0 :: calls ∧ LoopRel H (H 0) out.1 calls) := by
  constructor
  · intro H fuel r evs h
    exact (placeTrace_spec H fuel r evs h).1
  · intro numn nump H fuel out h
    unfold drawBaseTrace at h
    split at h
    · injection h with h
      cases h
    · rw [Option.map_eq_some'] at h
      obtain ⟨p, hp, hf⟩ := h
      injection hf with hf
      subst hf
      have hs := placeTrace_spec H fuel p.1 p.2 hp
      exact ⟨hs.2.2.2.2, hs.1⟩

/-- C3 witness: with a concrete helper oracle, the protocol holds of the
completed run. -/
theorem place_candidate_protocol_witness :
    ∃ calls,
      helperCalls
        [PlaceEv.placeEnter, PlaceEv.helperCall 0, PlaceEv.printExts 0 0 0,
         PlaceEv.pdbSetTrace, PlaceEv.placeInstances] = 0 :: calls ∧
      LoopRel (fun _ => (⟨0, 0, 0⟩ : HRes)) ((fun _ => (⟨0, 0, 0⟩ : HRes)) 0)
        ⟨0, 0, 0⟩ calls :=
  place_candidate_protocol.1 (fun _ => ⟨0, 0, 0⟩) 1 ⟨0, 0, 0⟩
    [PlaceEv.placeEnter, PlaceEv.helperCall 0, PlaceEv.printExts 0 0 0,
     PlaceEv.pdbSetTrace, PlaceEv.placeInstances] rfl

/-- C4: every extension width recorded in `ext_info_list` is DRC
quantized: it lies in the list returned by
`get_valid_extension_widths(lch_unit, top_ext_info, bot_ext_info)` or is
at least its largest element; and the first extension width is at least
the `bot_ext_w` argument.  (`get_valid_extension_widths` returns an
ascending list.) -/
theorem placeHelper_ext_widths_quantized (g : GridM K) (tech : TechClsM)
    (botExtW : Int) (rows : List (MasterM × TrackSpec)) (gds mosP totP dy : Int)
    (fuel : Nat) (res : PHRes K) (hm : 0 < mosP) (ht : 0 < totP)
    (hsort : ∀ a b : Nat, (tech.validExtWidths a b).Sorted (· ≤ ·))
    (h : placeHelper g tech botExtW rows gds mosP totP dy fuel = some res) :
    (∀ er ∈ res.extList,
      er.w ∈ tech.validExtWidths er.top er.bot ∨
        ∀ x ∈ tech.validExtWidths er.top er.bot, x ≤ er.w) ∧
    (∀ er0, res.extList.head? = some er0 → botExtW ≤ er0.w) := by
  unfold placeHelper at h
  split at h
  · injection h with h
    subst h
    exact ⟨by simp, by simp⟩
  case h_2 r rs =>
    have hq := phLoop_quant g tech gds mosP totP botExtW fuel hm ht rs r true dy res h
    constructor
    · intro er her
      rcases hq.1 er her with h1 | h1
      · exact Or.inl h1
      · right
        intro x hx
        have := le_lastElem_of_sorted _ (hsort er.top er.bot) x hx
        omega
    · exact hq.2 rfl

theorem techTest_sorted :
    ∀ a b : Nat, (techTest.validExtWidths a b).Sorted (· ≤ ·) := by
  intro a b
  show ([0, 1] : List Int).Sorted (· ≤ ·)
  decide

theorem placeHelper_eval :
    placeHelper gTest techTest 0 rowsTest 0 1 1 0 5 = some resTest := by decide

/-- C4 witness: the quantization property evaluated on a concrete
three-row placement. -/
theorem placeHelper_ext_widths_quantized_witness :
    (∀ er ∈ resTest.extList,
      er.w ∈ techTest.validExtWidths er.top er.bot ∨
        ∀ x ∈ techTest.validExtWidths er.top er.bot, x ≤ er.w) ∧
    (∀ er0, resTest.extList.head? = some er0 → (0 : Int) ≤ er0.w) :=
  placeHelper_ext_widths_quantized gTest techTest 0 rowsTest 0 1 1 0 5 resTest
    (by decide) (by decide) techTest_sorted placeHelper_eval

/-- C5: for every transistor row (`ng ≥ 0`) the returned gate interval
holds at least `ng` tracks and the drain/source interval at least `nds`
tracks; in `'R0'` orientation the gate interval holds exactly `ng`
tracks, in the flipped orientation the drain/source interval exactly
`nds`. -/
theorem placeHelper_track_interval_counts (g : GridM K) (tech : TechClsM)
    (botExtW : Int) (rows : List (MasterM × TrackSpec)) (gds mosP totP dy : Int)
    (fuel : Nat) (res : PHRes K)
    (h : placeHelper g tech botExtW rows gds mosP totP dy fuel = some res) :
    List.Forall₂ trackOK rows (res.gtr.zip res.dtr) := by
  unfold placeHelper at h
  split at h
  · injection h with h
    subst h
    exact List.Forall₂.nil
  case h_2 r rs =>
    exact phLoop_trackOK g tech gds mosP totP botExtW fuel rs r true dy res h

/-- C5 witness: the track-count property evaluated on the concrete
three-row placement. -/
theorem placeHelper_track_interval_counts_witness :
    List.Forall₂ trackOK rowsTest (resTest.gtr.zip resTest.dtr) :=
  placeHelper_track_interval_counts gTest techTest 0 rowsTest 0 1 1 0 5 resTest placeHelper_eval

/-- C6: `-(-y // mos_pitch) * mos_pitch` is the least multiple of
`mos_pitch` at least `y` (the rounding used for `y_next_min`), and in
`_place_helper` every block's chosen `y` coordinate except the last one
is an exact multiple of `mos_pitch`, provided the bottom offset `dy` and
all master heights are multiples of `mos_pitch`. -/
theorem placeHelper_pitch_alignment (a : Int) (g : GridM K) (tech : TechClsM)
    (botExtW : Int) (rows : List (MasterM × TrackSpec)) (gds mosP totP dy : Int)
    (fuel : Nat) (res : PHRes K) :
    (0 < mosP →
      mosP ∣ ceilMul a mosP ∧ a ≤ ceilMul a mosP ∧
        ∀ m0, mosP ∣ m0 → a ≤ m0 → ceilMul a mosP ≤ m0) ∧
    (placeHelper g tech botExtW rows gds mosP totP dy fuel = some res →
      mosP ∣ dy → (∀ r ∈ rows, mosP ∣ r.1.height) →
      ∀ i, i + 1 < res.yList.length → mosP ∣ res.yList.getD i 0) := by
  constructor
  · intro hm
    exact ⟨ceilMul_dvd a mosP, le_ceilMul a mosP hm,
      fun m0 hd hle => ceilMul_le a mosP m0 hm hd hle⟩
  · intro h hdy hh
    unfold placeHelper at h
    split at h
    · injection h with h
      subst h
      intro i hi
      simp at hi
    case h_2 r rs =>
      exact phLoop_dvd g tech gds mosP totP botExtW fuel rs r true dy res h hdy hh

/-- C6 witness: evaluated at `y = 5`, pitch 2 for the rounding property,
and on the concrete three-row placement (pitch 1) for the placement
property. -/
theorem placeHelper_pitch_alignment_witness :
    ((0 : Int) < 2 →
      (2 : Int) ∣ ceilMul 5 2 ∧ (5 : Int) ≤ ceilMul 5 2 ∧
        ∀ m0, (2 : Int) ∣ m0 → 5 ≤ m0 → ceilMul 5 2 ≤ m0) ∧
    (placeHelper gTest techTest 0 rowsTest 0 2 1 0 5 = some resTest →
      (2 : Int) ∣ 0 → (∀ r ∈ rowsTest, (2 : Int) ∣ r.1.height) →
      ∀ i, i + 1 < resTest.yList.length → (2 : Int) ∣ resTest.yList.getD i 0) :=
  placeHelper_pitch_alignment 5 gTest techTest 0 rowsTest 0 2 1 0 5 resTest

/-- C2 counterexample: the claim "every class defined in the repository's
source files is a template class" is false: `LaygoIntvSet` (declared
`class LaygoIntvSet(object)` in `abs_templates_ec/laygo/core.py`) is a
plain Python class outside the template hierarchy. -/
theorem not_every_class_is_template :
    ¬ (∀ c ∈ repoClasses, isTemplateClass c = true) := by decide

/-- C2 (amended): every class statement in the 17 source files declares a
subclass of a BAG template base class (`TemplateBase`, `MicroTemplate`,
or `StdCellBase`), except the plain helper classes `LaygoIntvSet`,
`LaygoBaseInfo`, `AnalogBaseInfo` and the technology helper
`LaygoTechFinfetBase` (whose base `LaygoTech` is a technology class, not
a template base). -/
theorem every_class_template_except_helpers :
    ∀ c ∈ repoClasses, c.name ∉ nonTemplateNames → isTemplateClass c = true := by
  decide

/-- C2 witness: `AnalogBase` is in the class table, is not one of the
helper classes, and is a template class. -/
theorem every_class_template_except_helpers_witness :
    (⟨"AnalogBase", ["TemplateBase"]⟩ : PyClassDecl) ∈ repoClasses ∧
    (⟨"AnalogBase", ["TemplateBase"]⟩ : PyClassDecl).name ∉ nonTemplateNames ∧
    isTemplateClass ⟨"AnalogBase", ["TemplateBase"]⟩ = true :=
  ⟨by decide, by decide,
    every_class_template_except_helpers ⟨"AnalogBase", ["TemplateBase"]⟩
      (by decide) (by decide)⟩

/-- C7: `LaygoIntvSet.add` returns `False` exactly when the interval
overlaps a stored one, and then leaves both the interval set and the
end-flag map unchanged; on success it returns `True`, stores the
interval, and toggles the end-flag entries at `start` and `stop`
(delete if present, else insert `endl`/`endr`), so that after any
sequence of proper adds the end-flag keys are exactly the boundary
columns not shared by two abutting intervals. -/
theorem laygoIntvSet_add_spec :
    (∀ (α β : Type) (st : LaygoIntvSetM α β) (iv : Intv) (ext : α)
       (endl endr : β),
       ((st.add iv ext endl endr).1 = false ↔
          ∃ q ∈ st.intv.items, intvOverlap q.1 iv) ∧
       ((st.add iv ext endl endr).1 = false → (st.add iv ext endl endr).2 = st) ∧
       ((st.add iv ext endl endr).1 = true →
          (st.add iv ext endl endr).2.intv.items = (iv, ext) :: st.intv.items ∧
          (st.add iv ext endl endr).2.endFlags =
            flagToggle (flagToggle st.endFlags iv.1 endl) iv.2 endr)) ∧
    (∀ (α β : Type) (reqs : List (AddReq α β)),
       (∀ r ∈ reqs, r.iv.1 < r.iv.2) →
       ∀ p, (runAdds reqs).hasFlag p =
         xor ((runAdds reqs).isStart p) ((runAdds reqs).isStop p)) := by
  constructor
  · intro α β st iv ext endl endr
    refine ⟨?_, ?_, ?_⟩
    · rw [add_fst]
      constructor
      · intro h
        have h2 : st.intv.items.any (fun p => decide (intvOverlap p.1 iv)) = true := by
          cases hx : st.intv.items.any (fun p => decide (intvOverlap p.1 iv))
          · rw [hx] at h
            cases h
          · rfl
        obtain ⟨q, hq, hov⟩ := List.any_eq_true.mp h2
        exact ⟨q, hq, of_decide_eq_true hov⟩
      · rintro ⟨q, hq, hov⟩
        have h2 : st.intv.items.any (fun p => decide (intvOverlap p.1 iv)) = true :=
          List.any_eq_true.mpr ⟨q, hq, decide_eq_true hov⟩
        rw [h2]
        rfl
    · intro h
      rw [add_fst] at h
      have h2 : st.intv.items.any (fun p => decide (intvOverlap p.1 iv)) = true := by
        cases hx : st.intv.items.any (fun p => decide (intvOverlap p.1 iv))
        · rw [hx] at h
          cases h
        · rfl
      exact add_snd_fail st iv ext endl endr h2
    · intro h
      rw [add_fst] at h
      have h2 : st.intv.items.any (fun p => decide (intvOverlap p.1 iv)) = false := by
        cases hx : st.intv.items.any (fun p => decide (intvOverlap p.1 iv))
        · rfl
        · rw [hx] at h
          cases h
      rw [add_snd_ok st iv ext endl endr h2]
      exact ⟨rfl, rfl⟩
  · intro α β reqs hr p
    exact (runAdds_inv reqs hr).2 p

/-- C7 witness: two abutting intervals added to a fresh `LaygoIntvSet`;
the shared boundary column 2 carries no end flag. -/
theorem laygoIntvSet_add_spec_witness :
    (runAdds [⟨(0, 2), 0, 1, 2⟩, ⟨(2, 4), 0, 3, 4⟩]).hasFlag 2 =
      xor ((runAdds [(⟨(0, 2), 0, 1, 2⟩ : AddReq Nat Nat), ⟨(2, 4), 0, 3, 4⟩]).isStart 2)
          ((runAdds [(⟨(0, 2), 0, 1, 2⟩ : AddReq Nat Nat), ⟨(2, 4), 0, 3, 4⟩]).isStop 2) :=
  laygoIntvSet_add_spec.2 Nat Nat
    [⟨(0, 2), 0, 1, 2⟩, ⟨(2, 4), 0, 3, 4⟩] (by decide) 2

/-- C8 witness: adding two copies of a two-column primitive at columns 0
and 2 of row 0 raises no `ValueError`. -/
theorem addLaygoPrimitive_spec_witness :
    (∃ e, addLaygoPrimitive lbTest 0 0 2 (7 : Nat) (1 : Nat) (2 : Nat) 2 2 =
        Except.error e) ↔
      ((0 : Int) < 0 ∨ (lbTest.usedList.length : Int) ≤ 0 ∨
        ∃ k < 2, copyBlocked ([] : List (Intv × Nat)) 0 2 2 k) :=
  (addLaygoPrimitive_spec lbTest 0 0 2 7 1 2 2 2 [] rfl).1

/-- C9: on every construction of `AnalogBaseInfo` and of `AnalogBase`,
the stored `_tech_cls` is exactly the value of the dictionary lookup
`tech_params['layout']['mos_tech_class']` on the grid's
`tech_info.tech_params`. -/
theorem techCls_is_dict_lookup :
    (∀ (interp : TechVal → MOSTechM) (grid : RoutingGridM) (minFgSep : Int)
       (st : AnalogBaseInfoSt),
       analogBaseInfoInit interp grid minFgSep = some st →
       mosTechClassLookup grid = some st.techCls) ∧
    (∀ (interp : TechVal → MOSTechM) (grid : RoutingGridM) (t : TechVal),
       analogBaseInit interp grid = Except.ok t →
       mosTechClassLookup grid = some t) := by
  constructor
  · intro interp grid minFgSep st h
    unfold analogBaseInfoInit at h
    simp only [Option.bind_eq_bind, bind, Option.bind_eq_some] at h
    obtain ⟨layoutD, hLay, techCls, hCls, abD, hAb, v, hv, n, hn, hfin⟩ := h
    injection hfin with hfin
    subst hfin
    unfold mosTechClassLookup
    rw [hLay]
    simpa using hCls
  · intro interp grid t h
    unfold analogBaseInit at h
    unfold mosTechClassLookup
    split at h
    · cases h
    case h_2 techCls hCls =>
      split at h
      · cases h
      · injection h with h
        subst h
        exact hCls

/-- C9 witness: on a concrete parameter dictionary, the constructed
`AnalogBaseInfo` stores exactly the looked-up class object. -/
theorem techCls_is_dict_lookup_witness :
    mosTechClassLookup gridTestC9 =
      some (⟨TechVal.cls 3, 2, 5, 4⟩ : AnalogBaseInfoSt).techCls :=
  techCls_is_dict_lookup.1 interpTest gridTestC9 0 ⟨TechVal.cls 3, 2, 5, 4⟩ rfl

/-- C10: `AnalogBase`, `LaygoBase` and `DigitalBase` are declared with
the `ABCMeta` metaclass, are subclasses of the framework's
`TemplateBase`, and direct instantiation of each fails with Python's
abstract-class `TypeError`, while a concrete subclass (`Transistor`,
which implements the abstract hooks) instantiates. -/
theorem abstract_base_templates_not_instantiable :
    ((findClassFull "AnalogBase").map (fun c => c.declaresABCMeta) = some true ∧
     pySubclassOf 8 "AnalogBase" "TemplateBase" = true ∧
     pyInstantiate "AnalogBase" =
       Except.error "Can't instantiate abstract class AnalogBase") ∧
    ((findClassFull "LaygoBase").map (fun c => c.declaresABCMeta) = some true ∧
     pySubclassOf 8 "LaygoBase" "TemplateBase" = true ∧
     pyInstantiate "LaygoBase" =
       Except.error "Can't instantiate abstract class LaygoBase") ∧
    ((findClassFull "DigitalBase").map (fun c => c.declaresABCMeta) = some true ∧
     pySubclassOf 8 "DigitalBase" "TemplateBase" = true ∧
     pyInstantiate "DigitalBase" =
       Except.error "Can't instantiate abstract class DigitalBase") ∧
    pyInstantiate "Transistor" = Except.ok () := by
  refine ⟨⟨rfl, rfl, rfl⟩, ⟨rfl, rfl, rfl⟩, ⟨rfl, rfl, rfl⟩, rfl⟩
